import Mathlib

/-!
# RAMIndex: BM25 scoring, search and k-NN classification

A shallow embedding of `src/index/ram_index.cpp`.

Numbers.  The C++ code computes in `double`.  Here every `double` is an element of an
arbitrary linearly ordered field `R` with floor (the rationals and the reals are instances),
and `log` is an arbitrary function `R → R` handed to the scoring function, so every theorem
below holds in particular for the reals with the natural logarithm.  Rounding, infinities and
NaN are outside this model.  `size_t` and `unsigned int` values are natural numbers.

Containers.  `unordered_map` is an association list whose keys are pairwise distinct; the
order in which C++ enumerates such a map is unspecified, so wherever the code iterates over
one whose order can matter, the enumeration order is an explicit argument.
`multimap<double, string>` is a list of pairs kept in non-decreasing key order.
-/

namespace RAMIndex

/-! ## Data model -/

/-- Identifier of a vocabulary term; only equality of identifiers is used. -/
abbrev TermID := Nat

/-- An `unordered_map<K, V>`: the stored pairs, with pairwise distinct keys. -/
structure UnorderedMap (K V : Type) where
  entries : List (K × V)
  nodupKeys : (entries.map Prod.fst).Nodup

namespace UnorderedMap

variable {K V : Type} [DecidableEq K]

/-- The empty map. -/
def empty : UnorderedMap K V := ⟨[], List.nodup_nil⟩

/-- The member `find`: the value stored under `k`, or `none` for `end()`. -/
def find (m : UnorderedMap K V) (k : K) : Option V :=
  (m.entries.find? (fun e => decide (e.1 = k))).map Prod.snd

/-- The set of keys of the map. -/
def keys (m : UnorderedMap K V) : Finset K :=
  (m.entries.map Prod.fst).toFinset

end UnorderedMap

/-- Modelled from the spec: the class `Document` (its header is not part of the sources):
identity fields, a mapping from term to occurrence count, and a length. -/
structure Document where
  name : String
  category : String
  frequencies : UnorderedMap TermID Nat
  length : Nat

namespace Document

/-- The getter `getName`. -/
def getName (d : Document) : String := d.name

/-- The getter `getCategory`. -/
def getCategory (d : Document) : String := d.category

/-- The getter `getLength`. -/
def getLength (d : Document) : Nat := d.length

/-- The getter `getFrequencies`. -/
def getFrequencies (d : Document) : UnorderedMap TermID Nat := d.frequencies

/-- Modelled from the spec: `Document::getFrequency`, the count of a term in the document,
which is 0 for a term the document does not hold. -/
def getFrequency (d : Document) (t : TermID) : Nat :=
  (d.frequencies.find t).getD 0

end Document

/-- The members of the class `RAMIndex`; `_avgDocLength` holds the value that a `double`
expression reads from the member. -/
structure Index (R : Type) where
  _docFreqs : UnorderedMap TermID Nat
  _documents : List Document
  _avgDocLength : R

variable {R : Type} [LinearOrderedField R]

/-! ## `RAMIndex::scoreDocument` -/

/-- The lookup `_docFreqs.find(term.first)` followed by
`(df == _docFreqs.end()) ? (0.0) : (df->second)`. -/
def docFreqOf (docFreqs : UnorderedMap TermID Nat) (t : TermID) : R :=
  match docFreqs.find t with
  | none => 0
  | some df => (df : R)

/-- The body of the loop of `scoreDocument` for one entry `term` of the query's map:
the value added to `score`. -/
def scoreTerm (log : R → R) (idx : Index R) (document query : Document)
    (term : TermID × Nat) : R :=
  let k1 : R := 1.5
  let b : R := 0.75
  let k3 : R := 500
  let docLength : R := (document.getLength : R)
  let numDocs : R := (idx._documents.length : R)
  let docFreq : R := docFreqOf idx._docFreqs term.1
  let termFreq : R := (document.getFrequency term.1 : R)
  let queryTermFreq : R := (query.getFrequency term.1 : R)
  let IDF := log ((numDocs - docFreq + 0.5) / (docFreq + 0.5))
  let TF := ((k1 + 1.0) * termFreq) / ((k1 * ((1.0 - b) + b * docLength / idx._avgDocLength)) + termFreq)
  let QTF := ((k3 + 1.0) * queryTermFreq) / (k3 + queryTermFreq)
  IDF * TF * QTF

/-- `RAMIndex::scoreDocument`: `score` starts at 0 and the loop adds one value per entry of
`query.getFrequencies()`. -/
def scoreDocument (log : R → R) (idx : Index R) (document query : Document) : R :=
  query.getFrequencies.entries.foldl (fun score term => score + scoreTerm log idx document query term) 0

/-! ### The BM25 formula as the specification words it -/

/-- The document frequency of a term: the number stored for it, 0 for an unknown term. -/
def specDf (idx : Index R) (t : TermID) : Nat :=
  (idx._docFreqs.find t).getD 0

/-- The specification's `IDF * TF * QTF` for numbers `N`, `df`, `tf`, `qtf`, `dl`, `avgdl`
and the defaults `k1 = 1.5`, `b = 0.75`, `k3 = 500`. -/
def bm25Spec (log : R → R) (N df tf qtf dl avgdl : R) : R :=
  log ((N - df + 1/2) / (df + 1/2))
    * ((3/2 + 1) * tf / (3/2 * ((1 - 3/4) + 3/4 * dl / avgdl) + tf))
    * ((500 + 1) * qtf / (500 + qtf))

/-! ## `RAMIndex::search` -/

/-- A `multimap<double, string>`: its pairs in iteration order (`begin()` to `end()`). -/
abbrev Ranking (R : Type) := List (R × String)

/-- The member `multimap::insert`: the new pair is placed before the first stored pair with a
greater key, that is, after all pairs whose key is smaller or equal. -/
def multimapInsert (ranks : Ranking R) (e : R × String) : Ranking R :=
  match ranks with
  | [] => [e]
  | h :: t => if e.1 < h.1 then e :: h :: t else h :: multimapInsert t e

/-- The label stored for a document:
`_documents[idx].getName() + " (" + _documents[idx].getCategory() + ")"`. -/
def labelOf (d : Document) : String :=
  d.getName ++ " (" ++ d.getCategory ++ ")"

/-- One iteration of the loop of `search`, for loop index `i`, on the shared `ranks`. -/
def searchStep (log : R → R) (idx : Index R) (query : Document) (ranks : Ranking R)
    (i : Nat) : Ranking R :=
  match idx._documents[i]? with
  | none => ranks
  | some d =>
    let score := scoreDocument log idx d query
    if score ≠ 0 then multimapInsert ranks (score, labelOf d) else ranks

/-- The order in which the iterations `0 .. n-1` of the `omp parallel for` loop enter the
critical section: some arrangement of the loop indices. -/
structure Schedule (n : Nat) where
  order : List Nat
  perm : order.Perm (List.range n)

/-- The schedule of a single thread: the loop indices in increasing order. -/
def Schedule.sequential (n : Nat) : Schedule n := ⟨List.range n, List.Perm.refl _⟩

/-- `RAMIndex::search` under a given schedule: `ranks` starts empty and every iteration
performs its insertion when its turn comes. -/
def search (log : R → R) (idx : Index R) (sched : Schedule idx._documents.length)
    (query : Document) : Ranking R :=
  sched.order.foldl (searchStep log idx query) []

/-! ## `RAMIndex::classifyKNN` -/

/-- `s.find_first_of(c)` as `some position`, or `none` for `npos`. -/
def findFirstOf (s : List Char) (c : Char) : Option Nat :=
  let i := s.indexOf c
  if i < s.length then some i else none

/-- The two statements that recover the category from a stored label:
`space = label.find_first_of(" ") + 1` (`npos + 1` wraps to 0) and
`label.substr(space, label.size() - space)`. -/
def categoryOf (label : String) : String :=
  let space : Nat :=
    match findFirstOf label.data ' ' with
    | some pos => pos + 1
    | none => 0
  String.mk ((label.data.drop space).take (label.data.length - space))

/-- The statement `counts[category]++` on an `unordered_map<string, size_t>` whose pairs are
listed in the order in which their keys were first inserted. -/
def increment (counts : List (String × Nat)) (category : String) : List (String × Nat) :=
  match counts with
  | [] => [(category, 1)]
  | c :: rest =>
    if c.1 = category then (c.1, c.2 + 1) :: rest else c :: increment rest category

/-- The state of the counting loop of `classifyKNN`; `visited` records the entries on which
the loop body ran, in order (it is not a variable of the C++ code). -/
structure WalkState (R : Type) where
  numResults : Nat
  counts : List (String × Nat)
  visited : Ranking R

/-- The counting loop
`for (result = rbegin; result != rend && numResults++ != k; ++result) counts[category]++`
run on the entries from `rbegin()` on: when an entry is left, `numResults` is compared with
`k` and then incremented, and the body runs if they differed. -/
def countingWalk (k : Nat) : Ranking R → WalkState R → WalkState R
  | [], st => st
  | result :: rest, st =>
    if st.numResults ≠ k then
      countingWalk k rest
        ⟨st.numResults + 1, increment st.counts (categoryOf result.2), st.visited ++ [result]⟩
    else
      ⟨st.numResults + 1, st.counts, st.visited⟩

/-- The order in which a range-for loop enumerates an `unordered_map<string, size_t>`:
unspecified, but each stored pair comes exactly once. -/
structure Enumeration where
  enum : List (String × Nat) → List (String × Nat)
  perm : ∀ counts, (enum counts).Perm counts

/-- The enumeration that lists the keys in the order of their first insertion. -/
def Enumeration.firstInserted : Enumeration := ⟨id, fun _ => List.Perm.refl _⟩

/-- The enumeration that lists the most recently inserted key first. -/
def Enumeration.lastInserted : Enumeration := ⟨List.reverse, fun l => List.reverse_perm l⟩

/-- The selection loop of `classifyKNN`: `best = "[no results]"`, `high = 0`, and a pair
replaces them when its count is greater than `high`. -/
def selectBest (enumerated : List (String × Nat)) : String × Nat :=
  enumerated.foldl
    (fun bh count => if count.2 > bh.2 then (count.1, count.2) else bh)
    ("[no results]", 0)

/-- The entries on which the counting loop of `classifyKNN` runs its body. -/
def visitedEntries (ranking : Ranking R) (k : Nat) : Ranking R :=
  (countingWalk k ranking.reverse ⟨0, [], []⟩).visited

/-- The counts the counting loop of `classifyKNN` builds. -/
def walkCounts (ranking : Ranking R) (k : Nat) : List (String × Nat) :=
  (countingWalk k ranking.reverse ⟨0, [], []⟩).counts

/-- The body of `classifyKNN` after the call of `search`: the counting loop from `rbegin()`,
then the selection loop; the value of `best` at `return best`. -/
def classifyRanking (it : Enumeration) (ranking : Ranking R) (k : Nat) : String :=
  (selectBest (it.enum (walkCounts ranking k))).1

/-- `RAMIndex::classifyKNN`.  The body holds no `throw`: every path ends in `return best`,
which is the `Except.ok` result; `Except.error` would carry the message of an exception. -/
def classifyKNN (log : R → R) (idx : Index R) (sched : Schedule idx._documents.length)
    (it : Enumeration) (query : Document) (k : Nat) : Except String String :=
  let ranking := search log idx sched query
  pure (classifyRanking it ranking k)

/-! ## Construction and `getAvgDocLength` -/

/-- The declared type of the member `_avgDocLength`.  The class declaration is not part of
the sources; the member is either integral (`size_t`, as the getter returns) or a `double`. -/
inductive AvgStore
  | sizeT
  | dbl
deriving DecidableEq

/-- What a call of a constructor ends in: an index, an error raised to the caller, or the
execution of `_avgDocLength /= 0`, a division by zero: undefined for an integral member,
and for a `double` member an object whose average is not a number. -/
inductive Construction (R : Type)
  | built (idx : Index R)
  | rejected (what : String)
  | divisionByZero

/-- The statement `_avgDocLength += doc.getLength()` (modulo 2^64 for a `size_t` member). -/
def accumulate (store : AvgStore) (acc len : Nat) : Nat :=
  match store with
  | .sizeT => (acc + len) % 2 ^ 64
  | .dbl => acc + len

/-- The statement `_avgDocLength /= _documents.size()`: integer division for a `size_t`
member, division of doubles otherwise, and no value when the size is 0. -/
def divideBySize (store : AvgStore) (acc size : Nat) : Option R :=
  if size = 0 then none
  else
    match store with
    | .sizeT => some ((acc / size : Nat) : R)
    | .dbl => some ((acc : R) / (size : R))

/-- The tokenizer, an external collaborator: `tokenize(doc, &_docFreqs)` updates the
document and the document frequencies. -/
abbrev Tokenizer :=
  Document → UnorderedMap TermID Nat → Document × UnorderedMap TermID Nat

/-- The members while a constructor runs. -/
structure BuildState where
  docFreqs : UnorderedMap TermID Nat
  documents : List Document
  acc : Nat

/-- One iteration of the loop of a constructor on the document `doc`: tokenize it, store it,
add its length. -/
def buildStep (store : AvgStore) (tokenize : Tokenizer) (st : BuildState) (doc : Document) :
    BuildState :=
  let r := tokenize doc st.docFreqs
  ⟨r.2, st.documents ++ [r.1], accumulate store st.acc r.1.getLength⟩

/-- The end of both constructors: `_avgDocLength /= _documents.size()`. -/
def finishBuild (store : AvgStore) (st : BuildState) : Construction R :=
  match divideBySize store st.acc st.documents.length with
  | none => .divisionByZero
  | some avg => .built ⟨st.docFreqs, st.documents, avg⟩

/-- `RAMIndex::RAMIndex(const vector<Document> &, Tokenizer*)`. -/
def ofDocuments (store : AvgStore) (tokenize : Tokenizer) (indexDocs : List Document) :
    Construction R :=
  finishBuild store (indexDocs.foldl (buildStep store tokenize) ⟨UnorderedMap.empty, [], 0⟩)

/-- `RAMIndex::RAMIndex(const vector<string> &, Tokenizer*)`; `load` stands for the
constructor `Document(file)`. -/
def ofFiles (store : AvgStore) (load : String → Document) (tokenize : Tokenizer)
    (indexFiles : List String) : Construction R :=
  finishBuild store
    (indexFiles.foldl (fun st file => buildStep store tokenize st (load file)) ⟨UnorderedMap.empty, [], 0⟩)

/-- The count stored under `category` in a counts map, 0 when the key is absent. -/
def countOf (counts : List (String × Nat)) (category : String) : Nat :=
  match counts.find? (fun e => decide (e.1 = category)) with
  | some e => e.2
  | none => 0

/-- The categories of the visited entries, in the order of the walk. -/
def visitedCategories (ranking : Ranking R) (k : Nat) : List String :=
  (visitedEntries ranking k).map (fun e => categoryOf e.2)

/-- A ranking of four entries in which the categories `A` and `B` both occur twice and the
descending walk meets `A` first. -/
def tiedRanking : Ranking ℚ := [(1, "d4 B"), (2, "d3 A"), (3, "d2 B"), (4, "d1 A")]

/-- The ranking `[(5.0, catA), (5.0, catB), (3.0, catA)]` as a multimap whose two entries of
score 5 were inserted `catB` first, so that the descending walk meets `catA` first. -/
def scenarioRanking : Ranking ℚ := [(3, "catA"), (5, "catB"), (5, "catA")]

/-- A document of length 10 holding term 7 three times. -/
def docTen : Document := ⟨"d1", "catA", ⟨[(7, 3)], by decide⟩, 10⟩

/-- A document of length 20 holding term 7 once. -/
def docTwenty : Document := ⟨"d2", "catB", ⟨[(7, 1)], by decide⟩, 20⟩

/-- A document of length 30 that does not hold term 7. -/
def docThirty : Document := ⟨"d3", "catA", ⟨[(8, 30)], by decide⟩, 30⟩

/-- An index of the three documents: lengths 10, 20, 30, average 20, term 7 in two of them. -/
def corpus3 : Index R := ⟨⟨[(7, 2), (8, 1)], by decide⟩, [docTen, docTwenty, docThirty], 20⟩

/-- A query holding term 7 `qtf` times. -/
def query7 (qtf : Nat) : Document := ⟨"q", "none", ⟨[(7, qtf)], by simp⟩, qtf⟩

end RAMIndex

/-!
# The rankers and tuning sweeps of `src/src/index/tools/query_runner.cpp`

`float` and `double` are again an arbitrary linearly ordered field `R`; the library functions
`std::log`, `log2`, `std::exp`, `std::pow` and `fastapprox::fastlog` are arguments of the
scoring functions.  The counters of a score context are natural numbers below 2^64.
-/

namespace QueryRunner

variable {R : Type} [LinearOrderedField R]

/-! ## Score context and rankers -/

/-- Modelled from the spec: the score context `index::score_data` (its header is not part of
the sources), with the fields the scoring functions read: `doc_size` stands for
`sd.idx.doc_size(sd.d_id)`; the counters are unsigned 64-bit numbers; a document frequency is
at most the number of documents. -/
structure ScoreData (R : Type) where
  doc_size : Nat
  avg_dl : R
  doc_term_count : Nat
  doc_count : Nat
  corpus_term_count : Nat
  total_terms : Nat
  num_docs : Nat
  query_term_weight : R
  query_length : R
  num_docs_lt : num_docs < 2 ^ 64
  doc_count_le : doc_count ≤ num_docs

/-- The difference `a - b` of two `uint64_t` values. -/
def usub64 (a b : Nat) : Nat := (a + 2 ^ 64 - b % 2 ^ 64) % 2 ^ 64

/-- The fields of `class pl2_ranker` with their default member initializers. -/
structure pl2_ranker (R : Type) [LinearOrderedField R] where
  c_ : R := 7
  lambda_ : R := 0.1

/-- `pl2_ranker::score_one`. -/
def pl2_ranker.score_one (log2 exp : R → R) (r : pl2_ranker R) (sd : ScoreData R) : R :=
  let doc_len : R := (sd.doc_size : R)
  let avg_dl : R := sd.avg_dl
  let tf : R := (sd.doc_term_count : R)
  let pi : R := 3.14
  let lambda : R := (sd.num_docs : R) / (sd.corpus_term_count : R)
  let c : R := r.c_
  let tfn : R := tf * log2 (1.0 + c * (avg_dl / doc_len))
  let score : R := (1.0 / (tfn + 1.0)) * (tfn * log2 (tfn / lambda)
    + (lambda + (1.0 / (12.0 * tfn)) - tfn) * log2 (exp 1) + 0.5 * log2 (2.0 * pi * tfn))
  score

/-- The fields of `class mdtf2ln_ranker` with their default member initializers. -/
structure mdtf2ln_ranker (R : Type) [LinearOrderedField R] where
  s_ : R := 0.2
  mu_ : R := 2000
  alpha_ : R := 0.3
  lambda_ : R := 0.7

/-- `mdtf2ln_ranker::score_one`. -/
def mdtf2ln_ranker.score_one (log : R → R) (pow : R → R → R) (r : mdtf2ln_ranker R)
    (sd : ScoreData R) : R :=
  let doc_len : R := (sd.doc_size : R)
  let avg_dl : R := sd.avg_dl
  let tf : R := (sd.doc_term_count : R)
  let df : R := (sd.doc_count : R)
  let pc : R := (sd.corpus_term_count : R) / (sd.total_terms : R)
  let s : R := r.s_
  let mu : R := r.mu_
  let alpha : R := r.alpha_
  let lambda : R := r.lambda_
  let tfok : R := 2.2 * tf / (1.2 + tf)
  let idfpiv : R := log (((sd.num_docs : R) + 1.0) / df)
  let tfidfdir : R := log (1.0 + tf / (mu * pc))
  let lnpiv : R := 1 - s + s * doc_len / avg_dl
  let tfidf2 : R := alpha * tfok * idfpiv + (1.0 - alpha) * tfidfdir
  let score : R := sd.query_term_weight * tfidf2 - sd.query_term_weight * pow lnpiv lambda
  score

/-- The fields of `class mptf2ln_ranker` with their default member initializers. -/
structure mptf2ln_ranker (R : Type) [LinearOrderedField R] where
  s_ : R := 0.2
  mu_ : R := 2000
  alpha_ : R := 0.3
  lambda_ : R := 0.7

/-- `mptf2ln_ranker::score_one`. -/
def mptf2ln_ranker.score_one (log : R → R) (pow : R → R → R) (r : mptf2ln_ranker R)
    (sd : ScoreData R) : R :=
  let doc_len : R := (sd.doc_size : R)
  let avg_dl : R := sd.avg_dl
  let tf : R := (sd.doc_term_count : R)
  let df : R := (sd.doc_count : R)
  let pc : R := (sd.corpus_term_count : R) / (sd.total_terms : R)
  let s : R := r.s_
  let mu : R := r.mu_
  let alpha : R := r.alpha_
  let lambda : R := r.lambda_
  let tfok : R := 2.2 * tf / (1.2 + tf)
  let idfpiv : R := log (((sd.num_docs : R) + 1.0) / df)
  let tfidfdir : R := log (1.0 + tf / (mu * pc))
  let lnpiv : R := 1 - s + s * doc_len / avg_dl
  let tfidf2 : R := alpha * tfok * idfpiv + (1.0 - alpha) * tfidfdir
  let score : R := sd.query_term_weight * tfidf2 / pow lnpiv lambda
  score

/-- The fields of `class sigmoidal_ranker` with their default member initializers. -/
structure sigmoidal_ranker (R : Type) [LinearOrderedField R] where
  b1_ : R := 2.9
  b2_ : R := 3.7
  l1_ : R := 1.0
  l2_ : R := 1.0
  c_ : R := 0.5
  k_ : R := 1.0

/-- The value of `h` in `sigmoidal_ranker::score_one` after the two `if` statements. -/
def sigmoidal_ranker.h (exp : R → R) (r : sigmoidal_ranker R) (sd : ScoreData R) : R :=
  let doc_len : R := (sd.doc_size : R)
  let query_len : R := sd.query_length
  let h : R := 1.0
  let h : R :=
    if doc_len < query_len then
      let power : R := r.l1_ * (doc_len - r.c_ * query_len)
      1.0 + (r.b1_ - 1.0) / (1.0 + exp power)
    else h
  let h : R :=
    if doc_len > query_len then
      let power : R := r.l2_ * (doc_len - (1.0 + r.c_) * query_len)
      1.0 + (r.b2_ - 1.0) / (1.0 + exp (-power))
    else h
  h

/-- The argument at which `sigmoidal_ranker::score_one` evaluates `fastapprox::fastlog`;
`sd.num_docs - sd.doc_count` is a difference of unsigned 64-bit numbers. -/
def sigmoidal_ranker.fastlogArgument (sd : ScoreData R) : R :=
  1.0 + ((usub64 sd.num_docs sd.doc_count : R) + 0.5) / ((sd.doc_count : R) + 0.5)

/-- `sigmoidal_ranker::score_one`. -/
def sigmoidal_ranker.score_one (fastlog exp : R → R) (r : sigmoidal_ranker R)
    (sd : ScoreData R) : R :=
  let k : R := r.k_
  let h : R := sigmoidal_ranker.h exp r sd
  let IDF : R := fastlog (sigmoidal_ranker.fastlogArgument sd)
  let TF : R := ((k + 1.0) * (sd.doc_term_count : R)) / ((k * h) + (sd.doc_term_count : R))
  let score : R := sd.query_term_weight * TF * IDF
  score

/-- The fields of `class mountain_ranker` with their default member initializers. -/
structure mountain_ranker (R : Type) [LinearOrderedField R] where
  lambda_ : R := 1.0
  k_ : R := 1.0

/-- `mountain_ranker::score_one`. -/
def mountain_ranker.score_one (pow : R → R → R) (r : mountain_ranker R) (sd : ScoreData R) :
    R :=
  let lambda : R := r.lambda_
  let doc_len : R := (sd.doc_size : R)
  let query_len : R := sd.query_length
  let regulate : R := pow (|doc_len - query_len| + 1.0) lambda
  let TF : R := (sd.doc_term_count : R) / regulate
  let score : R := TF
  score

/-! ### The formulas as the specification words them -/

/-- The specification's PL2 score, with `e` and `pi` as given numbers. -/
def pl2Spec (log2 : R → R) (e pi tf dl avgdl N ctf c : R) : R :=
  let tfn := tf * log2 (1 + c * avgdl / dl)
  let L := N / ctf
  1 / (tfn + 1)
    * (tfn * log2 (tfn / L) + (L + 1 / (12 * tfn) - tfn) * log2 e + 1 / 2 * log2 (2 * pi * tfn))

/-- The specification's `tfidf2` of MDTF2LN and MPTF2LN. -/
def tfidf2Spec (log : R → R) (mu alpha tf df N ctf total : R) : R :=
  let tfok := 22 / 10 * tf / (12 / 10 + tf)
  let idfpiv := log ((N + 1) / df)
  let pc := ctf / total
  let tfidfdir := log (1 + tf / (mu * pc))
  alpha * tfok * idfpiv + (1 - alpha) * tfidfdir

/-- The specification's `lnpiv` of MDTF2LN and MPTF2LN. -/
def lnpivSpec (s dl avgdl : R) : R := 1 - s + s * dl / avgdl

/-- A configuration table: `config.get_as<double>(key)` is the value under `key`, if any. -/
abbrev Config (R : Type) := String → Option R

/-- The table that holds no key. -/
def emptyConfig : Config R := fun _ => none

/-- The default constructor `pl2_ranker::pl2_ranker()`. -/
def pl2_ranker.default : pl2_ranker R := {}

/-- `make_ranker<pl2_ranker>`. -/
def pl2_ranker.make_ranker (config : Config R) : pl2_ranker R :=
  ⟨(config "c").getD 7.0, (config "lambda").getD 0.1⟩

/-- The default constructor `mountain_ranker::mountain_ranker()`. -/
def mountain_ranker.default : mountain_ranker R := {}

/-- `make_ranker<mountain_ranker>`. -/
def mountain_ranker.make_ranker (config : Config R) : mountain_ranker R :=
  ⟨(config "lambda").getD 1.0, (config "k").getD 1.0⟩

/-- The default constructor `sigmoidal_ranker::sigmoidal_ranker()`. -/
def sigmoidal_ranker.default : sigmoidal_ranker R := {}

/-- `make_ranker<sigmoidal_ranker>`. -/
def sigmoidal_ranker.make_ranker (config : Config R) : sigmoidal_ranker R :=
  ⟨(config "b1").getD 1.0, (config "b2").getD 1.0, (config "l1").getD 1.0,
    (config "l2").getD 1.0, (config "c").getD 1.0, (config "k").getD 1.0⟩

/-- The pattern `double x = d; if (auto x_file = config.get_as<double>(key)) x = *x_file;`. -/
def configOr (config : Config R) (key : String) (d : R) : R :=
  match config key with
  | some x_file => x_file
  | none => d

/-- The default constructor `mdtf2ln_ranker::mdtf2ln_ranker()`. -/
def mdtf2ln_ranker.default : mdtf2ln_ranker R := {}

/-- `make_ranker<mdtf2ln_ranker>`. -/
def mdtf2ln_ranker.make_ranker (config : Config R) : mdtf2ln_ranker R :=
  let s := configOr config "s" 0.2
  let mu := configOr config "mu" 2000
  let alpha := configOr config "alpha" 0.3
  let lambda := configOr config "lambda" 0.7
  ⟨s, mu, alpha, lambda⟩

/-- The default constructor `mptf2ln_ranker::mptf2ln_ranker()`. -/
def mptf2ln_ranker.default : mptf2ln_ranker R := {}

/-- `make_ranker<mptf2ln_ranker>`. -/
def mptf2ln_ranker.make_ranker (config : Config R) : mptf2ln_ranker R :=
  let s := configOr config "s" 0.2
  let mu := configOr config "mu" 2000
  let alpha := configOr config "alpha" 0.3
  let lambda := configOr config "lambda" 0.7
  ⟨s, mu, alpha, lambda⟩

/-! ## The tuning sweeps -/

/-- Modelled from the spec: the metric accumulator `index::ir_eval` (its source is not part
of the sources): it holds the average precision of every query evaluated since the last
reset; its zero state holds none. -/
structure IrEval (R : Type) where
  scores : List R

/-- The zero state of the accumulator. -/
def IrEval.zero : IrEval R := ⟨[]⟩

/-- Modelled from the spec: `ir_eval::avg_p`, which computes the average precision `ap` of a
ranking and accumulates it. -/
def IrEval.avg_p (eval : IrEval R) (ap : R) : IrEval R := ⟨eval.scores ++ [ap]⟩

/-- Modelled from the spec: `ir_eval::map`, the aggregate mean across the accumulated
queries. -/
def IrEval.map (eval : IrEval R) : R := eval.scores.sum / (eval.scores.length : R)

/-- Modelled from the spec: `ir_eval::reset_stats`, which puts the accumulator back in its
zero state. -/
def IrEval.reset_stats (_eval : IrEval R) : IrEval R := ⟨[]⟩

/-- The locals of a sweep besides the ranker: the accumulator, `maxmap`, the best parameter
values seen (`cmax`, `lambdamax`, ...) and the rows appended to the result file. -/
structure Progress (K R : Type) where
  eval : IrEval R
  maxmap : R
  best : K
  outfile : List (K × R)

section sweep

variable {K Q Rk : Type}

/-- The loop over `allqueries` of every sweep: `ranking = ranker->score(*idx, *query, 10)`
and `eval.avg_p(ranking, query.id(), 5)`; `score` stands for the former and `avgPrecision`
for the number the latter computes. -/
def evalQueries (score : K → Q → Rk) (avgPrecision : Rk → Q → R) (ranker : K)
    (allqueries : List Q) (eval : IrEval R) : IrEval R :=
  allqueries.foldl (fun eval query =>
    let ranking := score ranker query
    eval.avg_p (avgPrecision ranking query)) eval

/-- The body of the innermost grid loop after the ranker was configured: the loop over the
queries, the row `cell, eval.map()`, the comparison with `maxmap` and `eval.reset_stats()`;
`cell` holds the values of the loop variables. -/
def evaluateCell (score : K → Q → Rk) (avgPrecision : Rk → Q → R) (allqueries : List Q)
    (cell ranker : K) (pr : Progress K R) : Progress K R :=
  let eval := evalQueries score avgPrecision ranker allqueries pr.eval
  let outfile := pr.outfile ++ [(cell, eval.map)]
  if eval.map > pr.maxmap then ⟨eval.reset_stats, eval.map, cell, outfile⟩
  else ⟨eval.reset_stats, pr.maxmap, pr.best, outfile⟩

/-- The setter `pl2_ranker::set_param`. -/
def pl2_ranker.set_param (_r : pl2_ranker R) (c lambda : R) : pl2_ranker R :=
  ⟨c, lambda⟩

/-- The loops of `pl2_tune` over given lists of values, from a given accumulator. -/
def pl2_tuneOn (cvalues lambdavalues : List R) (score : pl2_ranker R → Q → Rk)
    (avgPrecision : Rk → Q → R) (allqueries : List Q) (eval : IrEval R) :
    pl2_ranker R × Progress (pl2_ranker R) R :=
  cvalues.foldl (fun st c =>
    lambdavalues.foldl (fun st lambda =>
      let ranker := st.1.set_param c lambda
      (ranker, evaluateCell score avgPrecision allqueries ⟨c, lambda⟩ ranker st.2)) st)
    (pl2_ranker.default, ⟨eval, 0, ⟨7, 0.1⟩, []⟩)

/-- The grid values of `pl2_tune` for `c`. -/
def pl2_cvalues : List R := [0.3, 0.6, 0.9, 0.2, 0.1, 0.01, 2.1, 2.4]

/-- The grid values of `pl2_tune` for `lambda`. -/
def pl2_lambdavalues : List R := [0.000001, 0.00001, 0.0001, 0.001, 0.01, 0.1, 1, 10]

/-- `pl2_tune`. -/
def pl2_tune (score : pl2_ranker R → Q → Rk) (avgPrecision : Rk → Q → R)
    (allqueries : List Q) (eval : IrEval R) : pl2_ranker R × Progress (pl2_ranker R) R :=
  pl2_tuneOn pl2_cvalues pl2_lambdavalues score avgPrecision allqueries eval

/-- The setter `mdtf2ln_ranker::set_param`. -/
def mdtf2ln_ranker.set_param (_r : mdtf2ln_ranker R) (s mu alpha lambda : R) :
    mdtf2ln_ranker R :=
  ⟨s, mu, alpha, lambda⟩

/-- The loops of `mdtf2ln_tune` over given lists of values, from a given accumulator. -/
def mdtf2ln_tuneOn (alphavalues lambdavalues svalues muvalues : List R)
    (score : mdtf2ln_ranker R → Q → Rk) (avgPrecision : Rk → Q → R) (allqueries : List Q)
    (eval : IrEval R) : mdtf2ln_ranker R × Progress (mdtf2ln_ranker R) R :=
  alphavalues.foldl (fun st alpha =>
    lambdavalues.foldl (fun st lambda =>
      svalues.foldl (fun st s =>
        muvalues.foldl (fun st mu =>
          let ranker := st.1.set_param s mu alpha lambda
          (ranker,
            evaluateCell score avgPrecision allqueries ⟨s, mu, alpha, lambda⟩ ranker st.2))
          st) st) st)
    (mdtf2ln_ranker.default, ⟨eval, 0, ⟨0.2, 2000, 0.3, 0.7⟩, []⟩)

/-- `mdtf2ln_tune`. -/
def mdtf2ln_tune (score : mdtf2ln_ranker R → Q → Rk) (avgPrecision : Rk → Q → R)
    (allqueries : List Q) (eval : IrEval R) :
    mdtf2ln_ranker R × Progress (mdtf2ln_ranker R) R :=
  mdtf2ln_tuneOn [0.0, 0.2, 0.4, 0.6, 0.8, 1.0]
    [0.0, 0.2, 0.4, 0.6, 0.8, 1.0, 1.2, 1.4, 1.6, 1.8] [0.0, 0.2, 0.4, 0.6, 0.8, 1.0]
    [10.0, 50.0, 100.0] score avgPrecision allqueries eval

/-- The setter `mptf2ln_ranker::set_param`. -/
def mptf2ln_ranker.set_param (_r : mptf2ln_ranker R) (s mu alpha lambda : R) :
    mptf2ln_ranker R :=
  ⟨s, mu, alpha, lambda⟩

/-- The loops of `mptf2ln_tune` over given lists of values, from a given accumulator. -/
def mptf2ln_tuneOn (alphavalues lambdavalues svalues muvalues : List R)
    (score : mptf2ln_ranker R → Q → Rk) (avgPrecision : Rk → Q → R) (allqueries : List Q)
    (eval : IrEval R) : mptf2ln_ranker R × Progress (mptf2ln_ranker R) R :=
  alphavalues.foldl (fun st alpha =>
    lambdavalues.foldl (fun st lambda =>
      svalues.foldl (fun st s =>
        muvalues.foldl (fun st mu =>
          let ranker := st.1.set_param s mu alpha lambda
          (ranker,
            evaluateCell score avgPrecision allqueries ⟨s, mu, alpha, lambda⟩ ranker st.2))
          st) st) st)
    (mptf2ln_ranker.default, ⟨eval, 0, ⟨0.2, 2000, 0.3, 0.7⟩, []⟩)

/-- `mptf2ln_tune`. -/
def mptf2ln_tune (score : mptf2ln_ranker R → Q → Rk) (avgPrecision : Rk → Q → R)
    (allqueries : List Q) (eval : IrEval R) :
    mptf2ln_ranker R × Progress (mptf2ln_ranker R) R :=
  mptf2ln_tuneOn [0.8, 1.0] [0.0, 0.2, 0.4, 0.6, 0.8, 1.0, 1.2, 1.4, 1.6, 1.8]
    [0.0, 0.2, 0.4, 0.6, 0.8, 1.0] [10.0, 50.0, 100.0] score avgPrecision allqueries eval

/-- The constructor arguments of the library ranker `meta::index::okapi_bm25`. -/
structure okapi_bm25 (R : Type) where
  k1 : R
  b : R
  k3 : R

/-- The loops of `bm25_tune` over given lists of values, from a given accumulator; every
cell builds its own ranker `make_unique<okapi_bm25>(k1, b, k3)`. -/
def bm25_tuneOn (k1values bvalues k3values : List R) (score : okapi_bm25 R → Q → Rk)
    (avgPrecision : Rk → Q → R) (allqueries : List Q) (eval : IrEval R) :
    Progress (okapi_bm25 R) R :=
  k1values.foldl (fun pr k1 =>
    bvalues.foldl (fun pr b =>
      k3values.foldl (fun pr k3 =>
        let ranker : okapi_bm25 R := ⟨k1, b, k3⟩
        evaluateCell score avgPrecision allqueries ⟨k1, b, k3⟩ ranker pr) pr) pr)
    ⟨eval, 0, ⟨1.2, 0.75, 500.0⟩, []⟩

/-- `bm25_tune`. -/
def bm25_tune (score : okapi_bm25 R → Q → Rk) (avgPrecision : Rk → Q → R)
    (allqueries : List Q) (eval : IrEval R) : Progress (okapi_bm25 R) R :=
  bm25_tuneOn
    [0.01, 0.5, 1.0, 1.1, 1.2, 1.3, 1.4, 1.5, 1.6, 1.7, 1.8, 1.9, 2.0, 2.1, 2.2, 2.3]
    [0.0, 0.1, 0.2, 0.3, 0.4, 0.5, 0.6, 0.7, 0.8, 0.9, 1.0] [500.0]
    score avgPrecision allqueries eval

/-- The setter `sigmoidal_ranker::set_param`. -/
def sigmoidal_ranker.set_param (_r : sigmoidal_ranker R) (b1 b2 l1 l2 c k : R) :
    sigmoidal_ranker R :=
  ⟨b1, b2, l1, l2, c, k⟩

/-- The constructor argument of the library ranker `meta::index::dirichlet_prior`. -/
structure dirichlet_prior (R : Type) where
  mu : R

/-- The locals of `dirichlet_tune`: the accumulator, `maxmap`, `mumax` and the rows
`mu, eval.map(), mean_ndcg / 1000.0` appended to the result file. -/
structure DirichletSweep (R : Type) where
  eval : IrEval R
  maxmap : R
  mumax : R
  outfile : List (R × R × R)

/-- The loop over `allqueries` of `dirichlet_tune`, which also adds the per-query value
`eval.ndcg(ranking, query.id(), 10)` to `mean_ndcg`; `ndcg` stands for that value. -/
def dirichletQueries (score : dirichlet_prior R → Q → Rk) (avgPrecision ndcg : Rk → Q → R)
    (ranker : dirichlet_prior R) (allqueries : List Q) (eval : IrEval R) (mean_ndcg : R) :
    IrEval R × R :=
  allqueries.foldl (fun acc query =>
    let ranking := score ranker query
    (acc.1.avg_p (avgPrecision ranking query), acc.2 + ndcg ranking query))
    (eval, mean_ndcg)

/-- The loop of `dirichlet_tune` over a given list of values, from a given accumulator. -/
def dirichlet_tuneOn (muvalues : List R) (score : dirichlet_prior R → Q → Rk)
    (avgPrecision ndcg : Rk → Q → R) (allqueries : List Q) (eval : IrEval R) :
    DirichletSweep R :=
  muvalues.foldl (fun st mu =>
    let ranker : dirichlet_prior R := ⟨mu⟩
    let mean_ndcg : R := 0.0
    let acc := dirichletQueries score avgPrecision ndcg ranker allqueries st.eval mean_ndcg
    let outfile := st.outfile ++ [(mu, acc.1.map, acc.2 / 1000.0)]
    if acc.1.map > st.maxmap then ⟨acc.1.reset_stats, acc.1.map, mu, outfile⟩
    else ⟨acc.1.reset_stats, st.maxmap, st.mumax, outfile⟩)
    ⟨eval, 0, 0.0, []⟩

/-- `dirichlet_tune`. -/
def dirichlet_tune (score : dirichlet_prior R → Q → Rk) (avgPrecision ndcg : Rk → Q → R)
    (allqueries : List Q) (eval : IrEval R) : DirichletSweep R :=
  dirichlet_tuneOn [0.0, 500.0, 2000.0] score avgPrecision ndcg allqueries eval

/-! ### Grids, aggregate metric and what a sweep reports -/

/-- The aggregate MAP of a cell: the value of `eval.map()` after the loop over the queries,
run from the zero state with a ranker holding the values `cell`. -/
def cellMap (score : K → Q → Rk) (avgPrecision : Rk → Q → R) (allqueries : List Q)
    (cell : K) : R :=
  (evalQueries score avgPrecision cell allqueries IrEval.zero).map

/-- The cell body iterated over a list of cells, every cell evaluated by a ranker that holds
the values of the cell. -/
def sweepCells (score : K → Q → Rk) (avgPrecision : Rk → Q → R) (allqueries : List Q)
    (pr : Progress K R) (cells : List K) : Progress K R :=
  cells.foldl (fun pr cell => evaluateCell score avgPrecision allqueries cell cell pr) pr

/-- The full cartesian product of the values of `c` and `lambda`, in the order of the loops
of `pl2_tune`. -/
def pl2Grid (cvalues lambdavalues : List R) : List (pl2_ranker R) :=
  cvalues.flatMap (fun c => lambdavalues.map (fun lambda => ⟨c, lambda⟩))

/-- The full cartesian product of the values of `alpha`, `lambda`, `s` and `mu`, in the
order of the loops of `mdtf2ln_tune`. -/
def mdtf2lnGrid (alphavalues lambdavalues svalues muvalues : List R) :
    List (mdtf2ln_ranker R) :=
  alphavalues.flatMap (fun alpha => lambdavalues.flatMap (fun lambda =>
    svalues.flatMap (fun s => muvalues.map (fun mu => ⟨s, mu, alpha, lambda⟩))))

/-- The full cartesian product of the values of `alpha`, `lambda`, `s` and `mu`, in the
order of the loops of `mptf2ln_tune`. -/
def mptf2lnGrid (alphavalues lambdavalues svalues muvalues : List R) :
    List (mptf2ln_ranker R) :=
  alphavalues.flatMap (fun alpha => lambdavalues.flatMap (fun lambda =>
    svalues.flatMap (fun s => muvalues.map (fun mu => ⟨s, mu, alpha, lambda⟩))))

/-- The full cartesian product of the values of `k1`, `b` and `k3`, in the order of the
loops of `bm25_tune`. -/
def bm25Grid (k1values bvalues k3values : List R) : List (okapi_bm25 R) :=
  k1values.flatMap (fun k1 => bvalues.flatMap (fun b =>
    k3values.map (fun k3 => ⟨k1, b, k3⟩)))

/-- What a finished sweep over `cells` reports, `m` being the aggregate MAP of a cell and
`initial` the parameter values the sweep starts from: one row per cell, in order; if some
cell has a MAP above 0, the reported metric is the greatest MAP and the reported values are
the first cell that attains it; if none has, the reported metric is 0 and the reported
values are the initial ones. -/
def ReportsBest (cells : List K) (m : K → R) (initial : K) (pr : Progress K R) : Prop :=
  pr.outfile = cells.map (fun cell => (cell, m cell))
    ∧ ((∃ cell ∈ cells, 0 < m cell) →
        (∀ cell ∈ cells, m cell ≤ pr.maxmap)
          ∧ m pr.best = pr.maxmap
          ∧ ∃ before after, cells = before ++ pr.best :: after
              ∧ ∀ cell ∈ before, m cell < pr.maxmap)
    ∧ ((∀ cell ∈ cells, m cell ≤ 0) → pr.maxmap = 0 ∧ pr.best = initial)

end sweep

/-! ### Two score contexts -/

/-- A score context whose counters are all 1, with average length, query term weight and
query length 1. -/
def unitContext : ScoreData R := ⟨1, 1, 1, 1, 1, 1, 1, 1, 1, by norm_num, le_refl 1⟩

end QueryRunner

namespace RAMIndex

variable {R : Type} [LinearOrderedField R]

/-! ## Theorems -/

theorem foldl_add_eq_sum {α : Type} (f : α → R) (l : List α) (init : R) :
    l.foldl (fun s x => s + f x) init = init + (l.map f).sum := by
  induction l generalizing init with
  | nil => simp
  | cons a t ih => simp [List.foldl_cons, ih, add_assoc]

theorem docFreqOf_eq_specDf (idx : Index R) (t : TermID) :
    (docFreqOf idx._docFreqs t : R) = (specDf idx t : R) := by
  unfold docFreqOf specDf
  cases idx._docFreqs.find t <;> simp

theorem scoreTerm_eq_bm25Spec (log : R → R) (idx : Index R) (document query : Document)
    (term : TermID × Nat) :
    scoreTerm log idx document query term
      = bm25Spec log (idx._documents.length : R) (specDf idx term.1 : R)
          (document.getFrequency term.1 : R) (query.getFrequency term.1 : R)
          (document.getLength : R) idx._avgDocLength := by
  simp only [scoreTerm, bm25Spec, docFreqOf_eq_specDf]
  norm_num

theorem scoreDocument_eq_sum_keys (log : R → R) (idx : Index R) (document query : Document) :
    scoreDocument log idx document query
      = ∑ t in query.getFrequencies.keys, scoreTerm log idx document query
          (t, query.getFrequency t) := by
  unfold scoreDocument
  rw [foldl_add_eq_sum, zero_add]
  have h : query.getFrequencies.entries.map (scoreTerm log idx document query)
      = (query.getFrequencies.entries.map Prod.fst).map
          (fun t => scoreTerm log idx document query (t, query.getFrequency t)) := by
    rw [List.map_map]
    apply List.map_congr_left
    intro e _
    simp [scoreTerm]
  rw [h, UnorderedMap.keys, List.sum_toFinset _ query.getFrequencies.nodupKeys]

/-- C1. `scoreDocument` returns the sum, over the distinct terms of the query, of the
specification's `IDF * TF * QTF`, with `N` the number of indexed documents, `df` the stored
document frequency (0 for an unknown term), `tf` and `qtf` the counts of the term in the
document and in the query, `dl` the document length and `avgdl` the index's average length.
In the three-document corpus (N = 3, avgdl = 20, dl = 10, df = 2, tf = 3) the score is
`log (3/5) * (40/21) * (501 * qtf / (500 + qtf))`. -/
theorem scoreDocument_eq_bm25_sum :
    (∀ (S : Type) [LinearOrderedField S] (log : S → S) (idx : Index S)
        (document query : Document),
      scoreDocument log idx document query
        = ∑ t in query.getFrequencies.keys,
            bm25Spec log (idx._documents.length : S) (specDf idx t : S)
              (document.getFrequency t : S) (query.getFrequency t : S)
              (document.getLength : S) idx._avgDocLength)
    ∧ (∀ (log : ℝ → ℝ) (qtf : Nat),
        scoreDocument log corpus3 docTen (query7 qtf)
          = log (3/5) * (40/21) * (501 * (qtf : ℝ) / (500 + (qtf : ℝ)))) := by
  refine ⟨?_, ?_⟩
  · intro S _ log idx document query
    rw [scoreDocument_eq_sum_keys]
    apply Finset.sum_congr rfl
    intro t _
    rw [scoreTerm_eq_bm25Spec]
  · intro log qtf
    rw [scoreDocument_eq_sum_keys]
    simp [UnorderedMap.keys, Document.getFrequencies, query7, scoreTerm, docFreqOf, corpus3,
      docTen, Document.getFrequency, UnorderedMap.find, Document.getLength]
    norm_num

/-! ### `search` -/

theorem multimapInsert_perm (ranks : Ranking R) (e : R × String) :
    (multimapInsert ranks e).Perm (e :: ranks) := by
  induction ranks with
  | nil => simp [multimapInsert]
  | cons h t ih =>
    unfold multimapInsert
    split
    · exact List.Perm.refl _
    · exact (List.Perm.cons h ih).trans (List.Perm.swap e h t)

/-- The pair that iteration `i` of the loop of `search` inserts, if it inserts one. -/
theorem searchStep_perm (log : R → R) (idx : Index R) (query : Document) (ranks : Ranking R)
    (i : Nat) :
    (searchStep log idx query ranks i).Perm
      (ranks ++ (idx._documents[i]?.bind (fun d =>
        if scoreDocument log idx d query ≠ 0 then some (scoreDocument log idx d query, labelOf d)
        else none)).toList) := by
  unfold searchStep
  cases h : idx._documents[i]? with
  | none => simp
  | some d =>
    by_cases hs : scoreDocument log idx d query = 0
    · simp [hs]
    · simp only [ne_eq, hs, not_false_eq_true, if_true, Option.some_bind, Option.toList_some]
      exact (multimapInsert_perm _ _).trans (List.perm_append_singleton _ _).symm

theorem foldl_searchStep_perm (log : R → R) (idx : Index R) (query : Document)
    (order : List Nat) (ranks : Ranking R) :
    (order.foldl (searchStep log idx query) ranks).Perm
      (ranks ++ order.filterMap (fun i => idx._documents[i]?.bind (fun d =>
        if scoreDocument log idx d query ≠ 0 then some (scoreDocument log idx d query, labelOf d)
        else none))) := by
  induction order generalizing ranks with
  | nil => simp
  | cons i rest ih =>
    rw [List.foldl_cons]
    refine (ih _).trans ?_
    rw [List.filterMap_cons]
    cases h : idx._documents[i]?.bind (fun d =>
        if scoreDocument log idx d query ≠ 0 then some (scoreDocument log idx d query, labelOf d)
        else none) with
    | none =>
      have := searchStep_perm log idx query ranks i
      rw [h] at this
      simp only [Option.toList_none, List.append_nil] at this
      exact List.Perm.append_right _ this
    | some e =>
      have := searchStep_perm log idx query ranks i
      rw [h] at this
      simp only [Option.toList_some] at this
      simpa [List.append_assoc] using List.Perm.append_right _ this

theorem filterMap_range_getElem {α β : Type} (g : α → Option β) (docs : List α) :
    (List.range docs.length).filterMap (fun i => docs[i]?.bind g) = docs.filterMap g := by
  induction docs with
  | nil => simp
  | cons d t ih =>
    rw [List.length_cons, List.range_succ_eq_map, List.filterMap_cons, List.filterMap_map]
    simp only [List.getElem?_cons_zero, Option.some_bind, Function.comp_def,
      List.getElem?_cons_succ, ih, List.filterMap_cons]

theorem filterMap_ite_eq_map_filter {α β : Type} (p : α → Prop) [DecidablePred p] (f : α → β)
    (l : List α) :
    l.filterMap (fun a => if p a then some (f a) else none)
      = (l.filter (fun a => decide (p a))).map f := by
  induction l with
  | nil => simp
  | cons a t ih =>
    by_cases h : p a <;> simp [List.filterMap_cons, List.filter_cons, h, ih]

theorem search_perm (log : R → R) (idx : Index R) (sched : Schedule idx._documents.length)
    (query : Document) :
    (search log idx sched query).Perm
      ((idx._documents.filter (fun d => decide (scoreDocument log idx d query ≠ 0))).map
        (fun d => (scoreDocument log idx d query, labelOf d))) := by
  unfold search
  refine (foldl_searchStep_perm log idx query sched.order []).trans ?_
  rw [List.nil_append]
  refine (sched.perm.filterMap _).trans ?_
  rw [filterMap_range_getElem, filterMap_ite_eq_map_filter]

theorem multimapInsert_sorted (ranks : Ranking R) (e : R × String)
    (h : ranks.Pairwise (fun a b => a.1 ≤ b.1)) :
    (multimapInsert ranks e).Pairwise (fun a b => a.1 ≤ b.1) := by
  induction ranks with
  | nil => simp [multimapInsert]
  | cons x t ih =>
    rw [List.pairwise_cons] at h
    unfold multimapInsert
    split
    · rename_i hlt
      rw [List.pairwise_cons]
      refine ⟨?_, List.pairwise_cons.mpr h⟩
      intro y hy
      rcases List.mem_cons.mp hy with rfl | hy
      · exact le_of_lt hlt
      · exact le_trans (le_of_lt hlt) (h.1 y hy)
    · rename_i hnlt
      rw [List.pairwise_cons]
      refine ⟨?_, ih h.2⟩
      intro y hy
      rcases List.mem_cons.mp ((multimapInsert_perm t e).mem_iff.mp hy) with rfl | hy
      · exact not_lt.mp hnlt
      · exact h.1 y hy

/-- The list `search` returns is a multimap: its keys are in non-decreasing order. -/
theorem search_sorted (log : R → R) (idx : Index R) (sched : Schedule idx._documents.length)
    (query : Document) :
    (search log idx sched query).Pairwise (fun a b => a.1 ≤ b.1) := by
  unfold search
  have hgen : ∀ (order : List Nat) (ranks : Ranking R),
      ranks.Pairwise (fun a b => a.1 ≤ b.1) →
      (order.foldl (searchStep log idx query) ranks).Pairwise (fun a b => a.1 ≤ b.1) := by
    intro order
    induction order with
    | nil => intro ranks h; simpa using h
    | cons i rest ih =>
      intro ranks h
      rw [List.foldl_cons]
      apply ih
      unfold searchStep
      split
      · exact h
      · simp only
        split
        · exact multimapInsert_sorted _ _ h
        · exact h
  exact hgen sched.order [] List.Pairwise.nil

/-- C2. Under every schedule of the parallel loop, the list `search` returns holds exactly
one entry for each indexed document whose `scoreDocument` value is non-zero, carrying that
score and the label `name ++ " (" ++ category ++ ")"`, and nothing else (so no entry for a
document scoring zero); it is empty exactly when every indexed document scores zero. -/
theorem search_holds_nonzero_documents (log : R → R) (idx : Index R)
    (sched : Schedule idx._documents.length) (query : Document) :
    (search log idx sched query).Perm
        ((idx._documents.filter (fun d => decide (scoreDocument log idx d query ≠ 0))).map
          (fun d => (scoreDocument log idx d query, d.name ++ " (" ++ d.category ++ ")")))
      ∧ (search log idx sched query = []
          ↔ ∀ d ∈ idx._documents, scoreDocument log idx d query = 0) := by
  have hp := search_perm log idx sched query
  refine ⟨hp, ?_⟩
  constructor
  · intro h d hd
    rw [h] at hp
    have hnil := List.Perm.nil_eq hp
    by_contra hne
    have hmem : d ∈ idx._documents.filter (fun d => decide (scoreDocument log idx d query ≠ 0)) :=
      List.mem_filter.mpr ⟨hd, by simpa using hne⟩
    have := List.mem_map_of_mem (fun d => (scoreDocument log idx d query, labelOf d)) hmem
    rw [← hnil] at this
    exact List.not_mem_nil _ this
  · intro h
    have hf : idx._documents.filter (fun d => decide (scoreDocument log idx d query ≠ 0)) = [] := by
      rw [List.filter_eq_nil_iff]
      intro d hd
      simpa using h d hd
    rw [hf] at hp
    exact List.Perm.eq_nil hp

/-! ### The counting walk of `classifyKNN` -/

/-- The loop started with `numResults ≤ k` runs its body on the next `k - numResults`
entries (or on all of them when fewer remain) and then stops. -/
theorem countingWalk_spec {S : Type} (k : Nat) (l : Ranking S) (st : WalkState S)
    (h : st.numResults ≤ k) :
    (countingWalk k l st).visited = st.visited ++ l.take (k - st.numResults)
      ∧ (countingWalk k l st).counts
          = (l.take (k - st.numResults)).foldl (fun c e => increment c (categoryOf e.2))
              st.counts := by
  induction l generalizing st with
  | nil => simp [countingWalk]
  | cons e rest ih =>
    unfold countingWalk
    by_cases hk : st.numResults = k
    · simp [hk]
    · have hlt : st.numResults < k := lt_of_le_of_ne h hk
      have hsub : k - st.numResults = (k - (st.numResults + 1)) + 1 := by omega
      simp only [ne_eq, hk, not_false_eq_true, if_true]
      have := ih ⟨st.numResults + 1, increment st.counts (categoryOf e.2), st.visited ++ [e]⟩
        (by simpa using hlt)
      simp only at this
      rw [this.1, this.2, hsub, List.take_succ_cons, List.foldl_cons]
      simp

theorem visitedEntries_eq_take {S : Type} (ranking : Ranking S) (k : Nat) :
    visitedEntries ranking k = ranking.reverse.take k := by
  have := (countingWalk_spec k ranking.reverse ⟨0, [], []⟩ (Nat.zero_le k)).1
  simpa [visitedEntries] using this

theorem walkCounts_eq_foldl {S : Type} (ranking : Ranking S) (k : Nat) :
    walkCounts ranking k
      = (visitedEntries ranking k).foldl (fun c e => increment c (categoryOf e.2)) [] := by
  rw [visitedEntries_eq_take]
  have := (countingWalk_spec k ranking.reverse ⟨0, [], []⟩ (Nat.zero_le k)).2
  simpa [walkCounts] using this

theorem increment_sum (counts : List (String × Nat)) (category : String) :
    ((increment counts category).map Prod.snd).sum = (counts.map Prod.snd).sum + 1 := by
  induction counts with
  | nil => simp [increment]
  | cons c rest ih =>
    unfold increment
    split
    · simp only [List.map_cons, List.sum_cons]; omega
    · simp only [List.map_cons, List.sum_cons, ih]; omega

theorem foldl_increment_sum {S : Type} (cats : Ranking S) (counts : List (String × Nat)) :
    ((cats.foldl (fun c e => increment c (categoryOf e.2)) counts).map Prod.snd).sum
      = (counts.map Prod.snd).sum + cats.length := by
  induction cats generalizing counts with
  | nil => simp
  | cons e rest ih =>
    rw [List.foldl_cons, ih, increment_sum, List.length_cons]
    omega

/-- C3. For a ranking of `n` entries (a multimap: keys in non-decreasing order) and every
`k`, the counting walk of `classifyKNN` visits exactly `min k n` entries; they are the first
entries of the descending traversal, so every entry left out scores no more than every
visited one; they are visited in non-increasing score order; and the counts built sum to
`min k n`. -/
theorem countingWalk_visits_top_k (ranking : Ranking R) (k : Nat)
    (hsorted : ranking.Pairwise (fun a b => a.1 ≤ b.1)) :
    (visitedEntries ranking k).length = min k ranking.length
      ∧ (∃ unvisited, (visitedEntries ranking k ++ unvisited).Perm ranking
          ∧ ∀ v ∈ visitedEntries ranking k, ∀ u ∈ unvisited, u.1 ≤ v.1)
      ∧ (visitedEntries ranking k).Pairwise (fun a b => b.1 ≤ a.1)
      ∧ ((walkCounts ranking k).map Prod.snd).sum = min k ranking.length := by
  have hrev : ranking.reverse.Pairwise (fun a b => b.1 ≤ a.1) :=
    List.pairwise_reverse.mpr hsorted
  have hlen : (visitedEntries ranking k).length = min k ranking.length := by
    rw [visitedEntries_eq_take, List.length_take, List.length_reverse]
  refine ⟨hlen, ⟨ranking.reverse.drop k, ?_, ?_⟩, ?_, ?_⟩
  · rw [visitedEntries_eq_take, List.take_append_drop]
    exact List.reverse_perm ranking
  · intro v hv u hu
    rw [visitedEntries_eq_take] at hv
    have hsplit : (ranking.reverse.take k ++ ranking.reverse.drop k).Pairwise
        (fun a b => b.1 ≤ a.1) := by
      rw [List.take_append_drop]; exact hrev
    exact (List.pairwise_append.mp hsplit).2.2 v hv u hu
  · rw [visitedEntries_eq_take]
    exact hrev.sublist (List.take_sublist k _)
  · rw [walkCounts_eq_foldl, foldl_increment_sum, hlen]
    simp

/-- An instance of C3: three entries, `k = 2`. -/
theorem countingWalk_visits_top_k_witness :
    ([((3 : ℚ), "d3 (catA)"), (5, "d1 (catA)"), (5, "d2 (catB)")] : Ranking ℚ).Pairwise
        (fun a b => a.1 ≤ b.1)
      ∧ (visitedEntries ([((3 : ℚ), "d3 (catA)"), (5, "d1 (catA)"), (5, "d2 (catB)")]) 2).length
          = min 2 ([((3 : ℚ), "d3 (catA)"), (5, "d1 (catA)"), (5, "d2 (catB)")] : Ranking ℚ).length :=
  ⟨by decide,
    (countingWalk_visits_top_k [((3 : ℚ), "d3 (catA)"), (5, "d1 (catA)"), (5, "d2 (catB)")] 2
      (by decide)).1⟩

/-! ### The counts map -/

theorem countOf_increment (counts : List (String × Nat)) (x c : String) :
    countOf (increment counts x) c = countOf counts c + (if c = x then 1 else 0) := by
  induction counts with
  | nil =>
    by_cases h : c = x
    · simp [increment, countOf, h]
    · have h2 : ¬ x = c := fun e => h e.symm
      simp [increment, countOf, h, h2]
  | cons e rest ih =>
    unfold increment
    by_cases he : e.1 = x
    · by_cases hc : c = x
      · simp [countOf, he, hc]
      · have : ¬ x = c := fun e => hc e.symm
        simp [countOf, he, hc, this]
    · by_cases hc : e.1 = c
      · have : ¬ c = x := fun h => he (hc.trans h)
        simp [countOf, he, hc, this]
      · unfold countOf at ih ⊢
        simp only [he, if_false, List.find?_cons, hc, decide_False]
        exact ih

theorem keys_increment (counts : List (String × Nat)) (x : String) :
    (increment counts x).map Prod.fst
      = if x ∈ counts.map Prod.fst then counts.map Prod.fst else counts.map Prod.fst ++ [x] := by
  induction counts with
  | nil => simp [increment]
  | cons e rest ih =>
    unfold increment
    by_cases he : e.1 = x
    · simp [he]
    · have hx : ¬ x = e.1 := fun h => he h.symm
      simp only [he, if_false, List.map_cons, ih, List.mem_cons, hx, false_or]
      split <;> simp

theorem nodup_keys_increment (counts : List (String × Nat)) (x : String)
    (h : (counts.map Prod.fst).Nodup) : ((increment counts x).map Prod.fst).Nodup := by
  rw [keys_increment]
  split
  · exact h
  · rename_i hx
    rw [List.nodup_append]
    refine ⟨h, List.nodup_singleton x, ?_⟩
    intro a ha hb
    rw [List.mem_singleton] at hb
    exact hx (hb ▸ ha)

theorem countOf_of_mem (counts : List (String × Nat)) (h : (counts.map Prod.fst).Nodup)
    (e : String × Nat) (he : e ∈ counts) : countOf counts e.1 = e.2 := by
  induction counts with
  | nil => exact absurd he (List.not_mem_nil _)
  | cons a rest ih =>
    rw [List.map_cons, List.nodup_cons] at h
    rcases List.mem_cons.mp he with rfl | hmem
    · simp [countOf]
    · have hne : ¬ a.1 = e.1 := by
        intro heq
        exact h.1 (heq ▸ List.mem_map_of_mem Prod.fst hmem)
      have := ih h.2 hmem
      unfold countOf at this ⊢
      simpa [List.find?_cons, hne] using this

theorem mem_of_countOf_pos (counts : List (String × Nat)) (c : String)
    (h : 0 < countOf counts c) : (c, countOf counts c) ∈ counts := by
  unfold countOf at h ⊢
  cases hf : counts.find? (fun e => decide (e.1 = c)) with
  | none => rw [hf] at h; exact absurd h (lt_irrefl 0)
  | some e =>
    have hm := List.mem_of_find?_eq_some hf
    have hp := List.find?_some hf
    simp only [decide_eq_true_eq] at hp
    simp only
    rw [← hp]
    exact hm

/-- The counts the walk builds: keys pairwise distinct, and under every category the number
of visited entries of that category. -/
theorem foldl_increment_spec (cats : List String) (counts : List (String × Nat))
    (h : (counts.map Prod.fst).Nodup) :
    ((cats.foldl increment counts).map Prod.fst).Nodup
      ∧ ∀ c, countOf (cats.foldl increment counts) c = countOf counts c + cats.count c := by
  induction cats generalizing counts with
  | nil => simp [h]
  | cons x rest ih =>
    rw [List.foldl_cons]
    have := ih (increment counts x) (nodup_keys_increment counts x h)
    refine ⟨this.1, fun c => ?_⟩
    rw [this.2 c, countOf_increment, List.count_cons]
    by_cases hc : c = x
    · simp [hc]; omega
    · have : ¬ x = c := fun e => hc e.symm
      simp [hc, this]

theorem walkCounts_spec {S : Type} (ranking : Ranking S) (k : Nat) :
    ((walkCounts ranking k).map Prod.fst).Nodup
      ∧ ∀ c, countOf (walkCounts ranking k) c = (visitedCategories ranking k).count c := by
  have hfold : walkCounts ranking k = (visitedCategories ranking k).foldl increment [] := by
    rw [walkCounts_eq_foldl, visitedCategories, List.foldl_map]
  have := foldl_increment_spec (visitedCategories ranking k) [] (by simp)
  rw [hfold]
  refine ⟨this.1, fun c => ?_⟩
  rw [this.2 c]
  simp [countOf]

/-! ### The selection loop -/

theorem foldl_select_spec (l : List (String × Nat)) (bh : String × Nat) :
    bh.2 ≤ (l.foldl (fun bh count => if count.2 > bh.2 then (count.1, count.2) else bh) bh).2
      ∧ (∀ e ∈ l,
          e.2 ≤ (l.foldl (fun bh count => if count.2 > bh.2 then (count.1, count.2) else bh) bh).2)
      ∧ ((l.foldl (fun bh count => if count.2 > bh.2 then (count.1, count.2) else bh) bh) = bh
          ∨ (l.foldl (fun bh count => if count.2 > bh.2 then (count.1, count.2) else bh) bh) ∈ l) := by
  induction l generalizing bh with
  | nil => simp
  | cons e rest ih =>
    rw [List.foldl_cons]
    by_cases h : e.2 > bh.2
    · simp only [h, if_true]
      obtain ⟨h1, h2, h3⟩ := ih (e.1, e.2)
      refine ⟨le_trans (le_of_lt h) h1, ?_, ?_⟩
      · intro a ha
        rcases List.mem_cons.mp ha with rfl | hm
        · exact h1
        · exact h2 a hm
      · right
        rcases h3 with h3 | h3
        · rw [h3]; exact List.mem_cons_self _ _
        · exact List.mem_cons_of_mem _ h3
    · simp only [h, if_false]
      obtain ⟨h1, h2, h3⟩ := ih bh
      refine ⟨h1, ?_, ?_⟩
      · intro a ha
        rcases List.mem_cons.mp ha with rfl | hm
        · exact le_trans (not_lt.mp h) h1
        · exact h2 a hm
      · rcases h3 with h3 | h3
        · left; exact h3
        · right; exact List.mem_cons_of_mem _ h3

theorem selectBest_nil : selectBest [] = ("[no results]", 0) := rfl

/-- When some enumerated pair has a positive count, the selection loop ends on an enumerated
pair whose count is the greatest. -/
theorem selectBest_spec (l : List (String × Nat)) (e0 : String × Nat) (h0 : e0 ∈ l)
    (hpos : 0 < e0.2) :
    selectBest l ∈ l ∧ ∀ e ∈ l, e.2 ≤ (selectBest l).2 := by
  obtain ⟨_, h2, h3⟩ := foldl_select_spec l ("[no results]", 0)
  refine ⟨?_, h2⟩
  rcases h3 with h3 | h3
  · have := h2 e0 h0
    unfold selectBest
    rw [h3] at this
    exact absurd (lt_of_lt_of_le hpos this) (lt_irrefl 0)
  · exact h3

/-! ### `classifyKNN` -/

theorem classifyRanking_of_no_visit {S : Type} (it : Enumeration) (ranking : Ranking S) (k : Nat)
    (h : visitedEntries ranking k = []) : classifyRanking it ranking k = "[no results]" := by
  have hc : walkCounts ranking k = [] := by rw [walkCounts_eq_foldl, h]; rfl
  have he : it.enum [] = [] := List.Perm.eq_nil (it.perm [])
  unfold classifyRanking
  rw [hc, he, selectBest_nil]

theorem classifyRanking_spec {S : Type} (it : Enumeration) (ranking : Ranking S) (k : Nat)
    (h : visitedEntries ranking k ≠ []) :
    classifyRanking it ranking k ∈ visitedCategories ranking k
      ∧ ∀ c, (visitedCategories ranking k).count c
          ≤ (visitedCategories ranking k).count (classifyRanking it ranking k) := by
  obtain ⟨hnodup, hcount⟩ := walkCounts_spec ranking k
  -- the first visited entry gives a pair with a positive count
  obtain ⟨v, vs, hv⟩ := List.exists_cons_of_ne_nil h
  have hc0 : 0 < (visitedCategories ranking k).count (categoryOf v.2) := by
    rw [List.count_pos_iff]
    unfold visitedCategories
    rw [hv]
    exact List.mem_cons_self _ _
  have hm0 : (categoryOf v.2, countOf (walkCounts ranking k) (categoryOf v.2))
      ∈ walkCounts ranking k :=
    mem_of_countOf_pos _ _ (by rw [hcount]; exact hc0)
  have hperm := it.perm (walkCounts ranking k)
  obtain ⟨hb, hmax⟩ := selectBest_spec (it.enum (walkCounts ranking k)) _ (hperm.mem_iff.mpr hm0)
    (by rw [hcount]; exact hc0)
  have hbmem : selectBest (it.enum (walkCounts ranking k)) ∈ walkCounts ranking k :=
    hperm.mem_iff.mp hb
  have hbcount : (visitedCategories ranking k).count (classifyRanking it ranking k)
      = (selectBest (it.enum (walkCounts ranking k))).2 := by
    rw [← hcount]
    exact countOf_of_mem _ hnodup _ hbmem
  constructor
  · have h1 := hmax _ (hperm.mem_iff.mpr hm0)
    simp only at h1
    rw [hcount] at h1
    have : 0 < (visitedCategories ranking k).count (classifyRanking it ranking k) := by
      rw [hbcount]; exact lt_of_lt_of_le hc0 h1
    exact List.count_pos_iff.mp this
  · intro c
    rw [hbcount]
    by_cases hc : (visitedCategories ranking k).count c = 0
    · rw [hc]; exact Nat.zero_le _
    · have hpos : 0 < countOf (walkCounts ranking k) c := by
        rw [hcount]; exact Nat.pos_of_ne_zero hc
      have hm := mem_of_countOf_pos _ _ hpos
      have := hmax _ (hperm.mem_iff.mpr hm)
      simp only at this
      rw [hcount] at this
      exact this

/-- C4. For every ranking and every `k ≥ 1` for which at least one entry is visited, and
for every enumeration order of the counts map, the label `classifyKNN` ends on is the
category of a visited entry, and no category occurs among the visited entries more often
than it. -/
theorem classifyRanking_returns_most_frequent {S : Type} (it : Enumeration) (ranking : Ranking S)
    (k : Nat) (_hk : 1 ≤ k) (hvisit : visitedEntries ranking k ≠ []) :
    classifyRanking it ranking k ∈ visitedCategories ranking k
      ∧ ∀ c, (visitedCategories ranking k).count c
          ≤ (visitedCategories ranking k).count (classifyRanking it ranking k) :=
  classifyRanking_spec it ranking k hvisit

/-- An instance of C4: `[(5.0, catA), (5.0, catB), (3.0, catA)]` with `k = 3` gives `catA`. -/
theorem classifyRanking_returns_most_frequent_witness :
    (1 ≤ 3 ∧ visitedEntries scenarioRanking 3 ≠ [])
      ∧ (classifyRanking Enumeration.lastInserted scenarioRanking 3
            ∈ visitedCategories scenarioRanking 3
          ∧ ∀ c, (visitedCategories scenarioRanking 3).count c
              ≤ (visitedCategories scenarioRanking 3).count
                  (classifyRanking Enumeration.lastInserted scenarioRanking 3))
      ∧ classifyRanking Enumeration.lastInserted scenarioRanking 3 = "catA" :=
  ⟨⟨by decide, by decide⟩,
    classifyRanking_returns_most_frequent Enumeration.lastInserted scenarioRanking 3
      (by decide) (by decide),
    by decide⟩

/-- C5 (evaluation of the code). In `tiedRanking` the categories `A` and `B` are both
counted twice and the descending walk meets `A` first; the label `classifyKNN` ends on is
the tied label that the counts map enumerates first: `B` when the map enumerates the most
recently inserted key first, `A` when it enumerates in insertion order. -/
theorem classifyRanking_tie_follows_enumeration :
    visitedCategories tiedRanking 4 = ["A", "B", "A", "B"]
      ∧ walkCounts tiedRanking 4 = [("A", 2), ("B", 2)]
      ∧ classifyRanking Enumeration.lastInserted tiedRanking 4 = "B"
      ∧ classifyRanking Enumeration.firstInserted tiedRanking 4 = "A" := by
  decide

theorem search_nil_visits_nothing {S : Type} (k : Nat) : visitedEntries ([] : Ranking S) k = [] := by
  rw [visitedEntries_eq_take]; simp

/-- C6. For every index, schedule, enumeration order, query and `k`: `classifyKNN` signals
no error; when the search result is empty it returns `"[no results]"`; and when at least
one entry is visited the returned label is the category of a visited entry, so it is
`"[no results]"` only if that is itself the category of a visited entry. -/
theorem classifyKNN_no_results_label (log : R → R) (idx : Index R)
    (sched : Schedule idx._documents.length) (it : Enumeration) (query : Document) (k : Nat) :
    (∃ label, classifyKNN log idx sched it query k = Except.ok label)
      ∧ (search log idx sched query = []
          → classifyKNN log idx sched it query k = Except.ok "[no results]")
      ∧ (visitedEntries (search log idx sched query) k ≠ []
          → ∃ label, classifyKNN log idx sched it query k = Except.ok label
              ∧ label ∈ visitedCategories (search log idx sched query) k
              ∧ (label = "[no results]"
                  → "[no results]" ∈ visitedCategories (search log idx sched query) k)) := by
  refine ⟨⟨_, rfl⟩, ?_, ?_⟩
  · intro h
    show Except.ok (classifyRanking it (search log idx sched query) k) = _
    rw [h, classifyRanking_of_no_visit it [] k (search_nil_visits_nothing k)]
  · intro h
    have hm := (classifyRanking_spec it (search log idx sched query) k h).1
    exact ⟨_, rfl, hm, fun he => he ▸ hm⟩

/-- C7 (the claim fails). On the three-document corpus, `classifyKNN` called with `k = 0`
returns the label `"[no results]"`; it signals no error. -/
theorem classifyKNN_zero_k_returns_label :
    classifyKNN (fun x => x) (corpus3 : Index ℚ) (Schedule.sequential _)
        Enumeration.firstInserted (query7 1) 0 = Except.ok "[no results]"
      ∧ ¬ ∃ what, classifyKNN (fun x => x) (corpus3 : Index ℚ) (Schedule.sequential _)
        Enumeration.firstInserted (query7 1) 0 = Except.error what := by
  have h : classifyKNN (fun x => x) (corpus3 : Index ℚ) (Schedule.sequential _)
      Enumeration.firstInserted (query7 1) 0 = Except.ok "[no results]" := by
    show Except.ok (classifyRanking _ _ 0) = _
    rw [classifyRanking_of_no_visit _ _ 0 (by rw [visitedEntries_eq_take]; rfl)]
  refine ⟨h, ?_⟩
  rintro ⟨what, hw⟩
  rw [h] at hw
  cases hw

/-- C7 (amended). For every index, schedule, enumeration order and query, `classifyKNN`
called with `k = 0` visits no entry and returns the label `"[no results]"`; no error is
signalled. -/
theorem classifyKNN_zero_k (log : R → R) (idx : Index R)
    (sched : Schedule idx._documents.length) (it : Enumeration) (query : Document) :
    visitedEntries (search log idx sched query) 0 = []
      ∧ classifyKNN log idx sched it query 0 = Except.ok "[no results]" := by
  have h : visitedEntries (search log idx sched query) 0 = [] := by
    rw [visitedEntries_eq_take]; rfl
  refine ⟨h, ?_⟩
  show Except.ok (classifyRanking it (search log idx sched query) 0) = _
  rw [classifyRanking_of_no_visit it _ 0 h]

/-! ### Construction -/

/-- C8 (evaluation of the code). Both constructors, given an empty list, run the loop zero
times and then execute `_avgDocLength /= _documents.size()` with size 0: the construction
ends in a division by zero and is not rejected with an error; and no constructor call on any
input ends in a rejection. -/
theorem construction_of_empty_divides_by_zero (store : AvgStore) (load : String → Document)
    (tokenize : Tokenizer) :
    (ofDocuments store tokenize [] : Construction R) = Construction.divisionByZero
      ∧ (ofFiles store load tokenize [] : Construction R) = Construction.divisionByZero
      ∧ (∀ indexDocs what,
          (ofDocuments store tokenize indexDocs : Construction R) ≠ Construction.rejected what)
      ∧ (∀ indexFiles what,
          (ofFiles store load tokenize indexFiles : Construction R)
            ≠ Construction.rejected what) := by
  refine ⟨?_, ?_, ?_, ?_⟩
  · simp [ofDocuments, finishBuild, divideBySize]
  · simp [ofFiles, finishBuild, divideBySize]
  · intro indexDocs what
    unfold ofDocuments finishBuild
    split <;> simp
  · intro indexFiles what
    unfold ofFiles finishBuild
    split <;> simp

theorem scoreTerm_of_absent (log : R → R) (idx : Index R) (document query : Document)
    (term : TermID × Nat) (h : document.getFrequency term.1 = 0) :
    scoreTerm log idx document query term = 0 := by
  simp [scoreTerm, h]

theorem getFrequency_of_not_mem_keys (document : Document) (t : TermID)
    (h : t ∉ document.getFrequencies.keys) : document.getFrequency t = 0 := by
  have hnone : document.frequencies.entries.find? (fun e => decide (e.1 = t)) = none := by
    rw [List.find?_eq_none]
    intro e he heq
    simp only [decide_eq_true_eq] at heq
    apply h
    simp only [UnorderedMap.keys, Document.getFrequencies, List.mem_toFinset]
    exact heq ▸ List.mem_map_of_mem Prod.fst he
  simp [Document.getFrequency, UnorderedMap.find, hnone]

/-- C10. For every index with average document length > 0, every document and every
query: a query term that does not occur in the document (tf = 0) adds exactly 0 to the
score, the three divisors of its contribution being positive; the score is the sum of the
contributions of the terms held by both the query and the document; and a document sharing
no term with the query scores 0. -/
theorem scoreDocument_skips_absent_terms (log : R → R) (idx : Index R)
    (havg : 0 < idx._avgDocLength) (document query : Document) :
    (∀ term : TermID × Nat, document.getFrequency term.1 = 0 →
        0 < docFreqOf idx._docFreqs term.1 + (0.5 : R)
        ∧ 0 < (1.5 : R) * ((1.0 - 0.75) + 0.75 * (document.getLength : R) / idx._avgDocLength)
              + (document.getFrequency term.1 : R)
        ∧ 0 < (500 : R) + (query.getFrequency term.1 : R)
        ∧ scoreTerm log idx document query term = 0)
      ∧ scoreDocument log idx document query
          = ∑ t in query.getFrequencies.keys ∩ document.getFrequencies.keys,
              scoreTerm log idx document query (t, query.getFrequency t)
      ∧ (Disjoint query.getFrequencies.keys document.getFrequencies.keys →
          scoreDocument log idx document query = 0) := by
  have hsum : scoreDocument log idx document query
      = ∑ t in query.getFrequencies.keys ∩ document.getFrequencies.keys,
          scoreTerm log idx document query (t, query.getFrequency t) := by
    rw [scoreDocument_eq_sum_keys]
    symm
    apply Finset.sum_subset Finset.inter_subset_left
    intro t _ hni
    apply scoreTerm_of_absent
    apply getFrequency_of_not_mem_keys
    intro hd
    exact hni (Finset.mem_inter.mpr ⟨by assumption, hd⟩)
  refine ⟨?_, hsum, ?_⟩
  · intro term htf
    refine ⟨?_, ?_, ?_, scoreTerm_of_absent log idx document query term htf⟩
    · have : (0 : R) ≤ docFreqOf idx._docFreqs term.1 := by
        rw [docFreqOf_eq_specDf]; exact Nat.cast_nonneg _
      have h5 : (0 : R) < 0.5 := by norm_num
      linarith
    · have hdl : (0 : R) ≤ (document.getLength : R) := Nat.cast_nonneg _
      have hq : (0 : R) ≤ 0.75 * (document.getLength : R) / idx._avgDocLength :=
        div_nonneg (mul_nonneg (by norm_num) hdl) (le_of_lt havg)
      have htf0 : (0 : R) ≤ (document.getFrequency term.1 : R) := Nat.cast_nonneg _
      have h1 : (0 : R) < 1.0 - 0.75 := by norm_num
      have h2 : (0 : R) < 1.5 := by norm_num
      have : (0 : R) < 1.5 * ((1.0 - 0.75) + 0.75 * (document.getLength : R) / idx._avgDocLength) :=
        mul_pos h2 (by linarith)
      linarith
    · have : (0 : R) ≤ (query.getFrequency term.1 : R) := Nat.cast_nonneg _
      linarith
  · intro hdisj
    rw [hsum, Finset.disjoint_iff_inter_eq_empty.mp hdisj, Finset.sum_empty]

/-- An instance of C10: the three-document corpus over the rationals, its document of length
30, which does not hold the query term 7. -/
theorem scoreDocument_skips_absent_terms_witness :
    (0 : ℚ) < (corpus3 : Index ℚ)._avgDocLength
      ∧ scoreDocument (fun x => x) (corpus3 : Index ℚ) docThirty (query7 2) = 0 :=
  ⟨by simp [corpus3],
    (scoreDocument_skips_absent_terms (fun x => x) (corpus3 : Index ℚ) (by simp [corpus3])
      docThirty (query7 2)).2.2 (by decide)⟩

/-! ### Independence of the schedule -/

/-- C11. For the same index and query and any two schedules of the parallel loop (any two
orders in which the per-document results are inserted), the two results of `search` hold
the same multiset of (score, label) entries, and the same scores at the same positions: they
differ at most in the order of the labels among entries of equal score. -/
theorem search_deterministic_up_to_ties (log : R → R) (idx : Index R)
    (sched₁ sched₂ : Schedule idx._documents.length) (query : Document) :
    (search log idx sched₁ query).Perm (search log idx sched₂ query)
      ∧ (search log idx sched₁ query).map Prod.fst
          = (search log idx sched₂ query).map Prod.fst := by
  have hperm : (search log idx sched₁ query).Perm (search log idx sched₂ query) :=
    (search_perm log idx sched₁ query).trans (search_perm log idx sched₂ query).symm
  refine ⟨hperm, ?_⟩
  have hs₁ : ((search log idx sched₁ query).map Prod.fst).Sorted (· ≤ ·) :=
    List.pairwise_map.mpr (search_sorted log idx sched₁ query)
  have hs₂ : ((search log idx sched₂ query).map Prod.fst).Sorted (· ≤ ·) :=
    List.pairwise_map.mpr (search_sorted log idx sched₂ query)
  exact List.eq_of_perm_of_sorted (hperm.map Prod.fst) hs₁ hs₂

/-! ### The category recovered from a label -/

/-- C18 (the claim fails). For the document named `d1` of category `catA`, the label built
by `search` is `d1 (catA)` and the category `classifyKNN` recovers from it is `(catA)`, not
`catA`. -/
theorem categoryOf_label_keeps_parentheses :
    labelOf docTen = "d1 (catA)"
      ∧ categoryOf (labelOf docTen) = "(catA)"
      ∧ categoryOf (labelOf docTen) ≠ docTen.getCategory := by
  decide

theorem categoryOf_data_of_no_space (name rest : List Char) (h : ' ' ∉ name) :
    categoryOf (String.mk (name ++ ' ' :: rest)) = String.mk rest := by
  have hidx : List.indexOf ' ' (name ++ ' ' :: rest) = name.length := by
    rw [List.indexOf_append_of_not_mem h, List.indexOf_cons_self, add_zero]
  have hlt : name.length < (name ++ ' ' :: rest).length := by
    rw [List.length_append, List.length_cons]; omega
  unfold categoryOf findFirstOf
  simp only [hidx, hlt, if_true]
  congr 1
  have hdrop : (name ++ ' ' :: rest).drop (name.length + 1) = rest := by
    rw [← List.drop_drop, List.drop_left, List.drop_one, List.tail_cons]
  rw [hdrop, List.take_of_length_le]
  rw [List.length_append, List.length_cons]
  omega

/-- C18 (amended). For every document whose name holds no space, and every category, the
label `classifyKNN` recovers from the entry `search` built for the document is the category
wrapped in parentheses, `"(" ++ category ++ ")"`; hence two such documents get the same
recovered label exactly when their categories are equal. -/
theorem categoryOf_label_of_spaceless_name (d : Document) (h : ' ' ∉ d.name.data) :
    categoryOf (labelOf d) = "(" ++ d.category ++ ")"
      ∧ ∀ d₂ : Document, ' ' ∉ d₂.name.data →
          (categoryOf (labelOf d) = categoryOf (labelOf d₂) ↔ d.category = d₂.category) := by
  have key : ∀ e : Document, ' ' ∉ e.name.data →
      categoryOf (labelOf e) = String.mk ('(' :: (e.category.data ++ [')'])) := by
    intro e he
    have hl : labelOf e = String.mk (e.name.data ++ ' ' :: ('(' :: (e.category.data ++ [')']))) := by
      apply String.ext
      simp [labelOf, Document.getName, Document.getCategory, String.data_append]
    rw [hl, categoryOf_data_of_no_space _ _ he]
  refine ⟨?_, ?_⟩
  · rw [key d h]
    apply String.ext
    simp [String.data_append]
  · intro d₂ h₂
    rw [key d h, key d₂ h₂]
    constructor
    · intro heq
      have hdata : '(' :: (d.category.data ++ [')']) = '(' :: (d₂.category.data ++ [')']) :=
        congrArg String.data heq
      have := List.append_cancel_right (List.cons.inj hdata).2
      exact String.ext this
    · intro heq
      rw [heq]

/-- An instance of C18 (amended): the document named `d1` of category `catA`. -/
theorem categoryOf_label_of_spaceless_name_witness :
    ' ' ∉ docTen.name.data ∧ categoryOf (labelOf docTen) = "(" ++ docTen.category ++ ")" :=
  ⟨by decide, (categoryOf_label_of_spaceless_name docTen (by decide)).1⟩

end RAMIndex

namespace QueryRunner

variable {R : Type} [LinearOrderedField R]

/-! ### The cell body iterated over a list of cells -/

theorem foldl_flatMap_eq {α β σ : Type} (f : σ → β → σ) (g : α → List β) (l : List α)
    (init : σ) :
    (l.flatMap g).foldl f init = l.foldl (fun st a => (g a).foldl f st) init := by
  induction l generalizing init with
  | nil => rfl
  | cons a t ih => rw [List.flatMap_cons, List.foldl_append, ih, List.foldl_cons]

theorem evaluateCell_of_zero {K Q Rk : Type} (score : K → Q → Rk) (avgPrecision : Rk → Q → R)
    (allqueries : List Q) (cell : K) (pr : Progress K R) (h : pr.eval = IrEval.zero) :
    evaluateCell score avgPrecision allqueries cell cell pr
      = if cellMap score avgPrecision allqueries cell > pr.maxmap then
          ⟨IrEval.zero, cellMap score avgPrecision allqueries cell, cell,
            pr.outfile ++ [(cell, cellMap score avgPrecision allqueries cell)]⟩
        else
          ⟨IrEval.zero, pr.maxmap, pr.best,
            pr.outfile ++ [(cell, cellMap score avgPrecision allqueries cell)]⟩ := by
  unfold evaluateCell cellMap
  rw [h]
  rfl

/-- The state after the cell body was iterated over `cells` from a state whose accumulator
is in its zero state. -/
theorem sweepCells_spec {K Q Rk : Type} (score : K → Q → Rk) (avgPrecision : Rk → Q → R)
    (allqueries : List Q) (cells : List K) (pr : Progress K R) (h : pr.eval = IrEval.zero) :
    (sweepCells score avgPrecision allqueries pr cells).eval = IrEval.zero
      ∧ (sweepCells score avgPrecision allqueries pr cells).outfile
          = pr.outfile ++ cells.map (fun c => (c, cellMap score avgPrecision allqueries c))
      ∧ pr.maxmap ≤ (sweepCells score avgPrecision allqueries pr cells).maxmap
      ∧ (∀ c ∈ cells, cellMap score avgPrecision allqueries c
          ≤ (sweepCells score avgPrecision allqueries pr cells).maxmap)
      ∧ (((sweepCells score avgPrecision allqueries pr cells).maxmap = pr.maxmap
            ∧ (sweepCells score avgPrecision allqueries pr cells).best = pr.best)
          ∨ (pr.maxmap < (sweepCells score avgPrecision allqueries pr cells).maxmap
            ∧ cellMap score avgPrecision allqueries
                (sweepCells score avgPrecision allqueries pr cells).best
              = (sweepCells score avgPrecision allqueries pr cells).maxmap
            ∧ ∃ before after,
                cells = before
                  ++ (sweepCells score avgPrecision allqueries pr cells).best :: after
                ∧ ∀ c ∈ before, cellMap score avgPrecision allqueries c
                    < (sweepCells score avgPrecision allqueries pr cells).maxmap)) := by
  induction cells generalizing pr with
  | nil => simp [sweepCells, h]
  | cons cell rest ih =>
    have hstep : sweepCells score avgPrecision allqueries pr (cell :: rest)
        = sweepCells score avgPrecision allqueries
            (evaluateCell score avgPrecision allqueries cell cell pr) rest := rfl
    rw [hstep, evaluateCell_of_zero score avgPrecision allqueries cell pr h]
    by_cases hgt : cellMap score avgPrecision allqueries cell > pr.maxmap
    · simp only [hgt, if_true]
      obtain ⟨h1, h2, h3, h4, h5⟩ := ih
        ⟨IrEval.zero, cellMap score avgPrecision allqueries cell, cell,
          pr.outfile ++ [(cell, cellMap score avgPrecision allqueries cell)]⟩ rfl
      simp only at h2 h3 h5
      refine ⟨h1, ?_, le_trans (le_of_lt hgt) h3, ?_, ?_⟩
      · rw [h2]; simp
      · intro c hc
        rcases List.mem_cons.mp hc with rfl | hc
        · exact h3
        · exact h4 c hc
      · right
        rcases h5 with ⟨hm, hb⟩ | ⟨hlt, hm, before, after, hsplit, hbefore⟩
        · refine ⟨?_, ?_, [], rest, ?_, ?_⟩
          · rw [hm]; exact hgt
          · rw [hb, hm]
          · rw [hb]; rfl
          · intro c hc; exact absurd hc (List.not_mem_nil c)
        · refine ⟨lt_trans hgt hlt, hm, cell :: before, after, ?_, ?_⟩
          · exact congrArg (List.cons cell) hsplit
          · intro c hc
            rcases List.mem_cons.mp hc with rfl | hc
            · exact hlt
            · exact hbefore c hc
    · simp only [hgt, if_false]
      obtain ⟨h1, h2, h3, h4, h5⟩ := ih
        ⟨IrEval.zero, pr.maxmap, pr.best,
          pr.outfile ++ [(cell, cellMap score avgPrecision allqueries cell)]⟩ rfl
      simp only at h2 h3 h5
      refine ⟨h1, ?_, h3, ?_, ?_⟩
      · rw [h2]; simp
      · intro c hc
        rcases List.mem_cons.mp hc with rfl | hc
        · exact le_trans (not_lt.mp hgt) h3
        · exact h4 c hc
      · rcases h5 with ⟨hm, hb⟩ | ⟨hlt, hm, before, after, hsplit, hbefore⟩
        · left; exact ⟨hm, hb⟩
        · right
          refine ⟨hlt, hm, cell :: before, after, ?_, ?_⟩
          · exact congrArg (List.cons cell) hsplit
          · intro c hc
            rcases List.mem_cons.mp hc with rfl | hc
            · exact lt_of_le_of_lt (not_lt.mp hgt) hlt
            · exact hbefore c hc

/-- A sweep that starts with the accumulator in its zero state, `maxmap = 0` and no row
reports what `ReportsBest` says. -/
theorem sweepCells_reportsBest {K Q Rk : Type} (score : K → Q → Rk)
    (avgPrecision : Rk → Q → R) (allqueries : List Q) (cells : List K) (initial : K) :
    ReportsBest cells (cellMap score avgPrecision allqueries) initial
      (sweepCells score avgPrecision allqueries ⟨IrEval.zero, 0, initial, []⟩ cells) := by
  obtain ⟨_, h2, h3, h4, h5⟩ := sweepCells_spec score avgPrecision allqueries cells
    ⟨IrEval.zero, 0, initial, []⟩ rfl
  simp only [List.nil_append] at h2 h3 h5
  refine ⟨h2, ?_, ?_⟩
  · rintro ⟨c, hc, hpos⟩
    rcases h5 with ⟨hm, _⟩ | ⟨_, hm, hsplit⟩
    · exact absurd (lt_of_lt_of_le hpos (h4 c hc)) (by rw [hm]; exact lt_irrefl 0)
    · exact ⟨h4, hm, hsplit⟩
  · intro hall
    rcases h5 with ⟨hm, hb⟩ | ⟨hlt, hm, before, after, hsplit, _⟩
    · exact ⟨hm, hb⟩
    · have hmem : (sweepCells score avgPrecision allqueries ⟨IrEval.zero, 0, initial, []⟩
          cells).best ∈ cells := by
        have hm' := List.mem_append_right before (List.mem_cons_self
          (sweepCells score avgPrecision allqueries ⟨IrEval.zero, 0, initial, []⟩ cells).best
          after)
        rw [← hsplit] at hm'
        exact hm'
      have := hall _ hmem
      rw [hm] at this
      exact absurd (lt_of_lt_of_le hlt this) (lt_irrefl 0)

/-! ### The sweeps as the cell body iterated over their grid -/

theorem foldl_pair_snd {K Q Rk : Type} (score : K → Q → Rk) (avgPrecision : Rk → Q → R)
    (allqueries : List Q) (cells : List K) (st : K × Progress K R) :
    (cells.foldl
        (fun st cell => (cell, evaluateCell score avgPrecision allqueries cell cell st.2))
        st).2
      = sweepCells score avgPrecision allqueries st.2 cells := by
  induction cells generalizing st with
  | nil => rfl
  | cons cell rest ih =>
    rw [List.foldl_cons, ih]
    rfl

theorem pl2_tuneOn_eq_sweep {Q Rk : Type} (cvalues lambdavalues : List R)
    (score : pl2_ranker R → Q → Rk) (avgPrecision : Rk → Q → R) (allqueries : List Q)
    (eval : IrEval R) :
    (pl2_tuneOn cvalues lambdavalues score avgPrecision allqueries eval).2
      = sweepCells score avgPrecision allqueries ⟨eval, 0, ⟨7, 0.1⟩, []⟩
          (pl2Grid cvalues lambdavalues) := by
  have h : pl2_tuneOn cvalues lambdavalues score avgPrecision allqueries eval
      = (pl2Grid cvalues lambdavalues).foldl
          (fun st cell => (cell, evaluateCell score avgPrecision allqueries cell cell st.2))
          (pl2_ranker.default, ⟨eval, 0, ⟨7, 0.1⟩, []⟩) := by
    rw [pl2Grid, foldl_flatMap_eq]
    simp only [List.foldl_map]
    rfl
  rw [h, foldl_pair_snd]

theorem mdtf2ln_tuneOn_eq_sweep {Q Rk : Type}
    (alphavalues lambdavalues svalues muvalues : List R)
    (score : mdtf2ln_ranker R → Q → Rk) (avgPrecision : Rk → Q → R) (allqueries : List Q)
    (eval : IrEval R) :
    (mdtf2ln_tuneOn alphavalues lambdavalues svalues muvalues score avgPrecision allqueries
        eval).2
      = sweepCells score avgPrecision allqueries ⟨eval, 0, ⟨0.2, 2000, 0.3, 0.7⟩, []⟩
          (mdtf2lnGrid alphavalues lambdavalues svalues muvalues) := by
  have h : mdtf2ln_tuneOn alphavalues lambdavalues svalues muvalues score avgPrecision
        allqueries eval
      = (mdtf2lnGrid alphavalues lambdavalues svalues muvalues).foldl
          (fun st cell => (cell, evaluateCell score avgPrecision allqueries cell cell st.2))
          (mdtf2ln_ranker.default, ⟨eval, 0, ⟨0.2, 2000, 0.3, 0.7⟩, []⟩) := by
    rw [mdtf2lnGrid, foldl_flatMap_eq]
    simp only [foldl_flatMap_eq, List.foldl_map]
    rfl
  rw [h, foldl_pair_snd]

theorem mptf2ln_tuneOn_eq_sweep {Q Rk : Type}
    (alphavalues lambdavalues svalues muvalues : List R)
    (score : mptf2ln_ranker R → Q → Rk) (avgPrecision : Rk → Q → R) (allqueries : List Q)
    (eval : IrEval R) :
    (mptf2ln_tuneOn alphavalues lambdavalues svalues muvalues score avgPrecision allqueries
        eval).2
      = sweepCells score avgPrecision allqueries ⟨eval, 0, ⟨0.2, 2000, 0.3, 0.7⟩, []⟩
          (mptf2lnGrid alphavalues lambdavalues svalues muvalues) := by
  have h : mptf2ln_tuneOn alphavalues lambdavalues svalues muvalues score avgPrecision
        allqueries eval
      = (mptf2lnGrid alphavalues lambdavalues svalues muvalues).foldl
          (fun st cell => (cell, evaluateCell score avgPrecision allqueries cell cell st.2))
          (mptf2ln_ranker.default, ⟨eval, 0, ⟨0.2, 2000, 0.3, 0.7⟩, []⟩) := by
    rw [mptf2lnGrid, foldl_flatMap_eq]
    simp only [foldl_flatMap_eq, List.foldl_map]
    rfl
  rw [h, foldl_pair_snd]

theorem bm25_tuneOn_eq_sweep {Q Rk : Type} (k1values bvalues k3values : List R)
    (score : okapi_bm25 R → Q → Rk) (avgPrecision : Rk → Q → R) (allqueries : List Q)
    (eval : IrEval R) :
    bm25_tuneOn k1values bvalues k3values score avgPrecision allqueries eval
      = sweepCells score avgPrecision allqueries ⟨eval, 0, ⟨1.2, 0.75, 500.0⟩, []⟩
          (bm25Grid k1values bvalues k3values) := by
  unfold sweepCells
  rw [bm25Grid, foldl_flatMap_eq]
  simp only [foldl_flatMap_eq, List.foldl_map]
  rfl

/-! ### What the sweeps report -/

/-- C12 (the claim fails). With one query whose average precision is 0 under every
parameter combination, every cell of the grid of `pl2_tune` has the aggregate MAP 0, which
is the maximum; `pl2_tune` reports the metric 0 with the combination `c = 7, lambda = 0.1`,
which is not a cell of the grid. -/
theorem pl2_tune_reports_initial_values :
    (∀ cell ∈ pl2Grid (pl2_cvalues : List ℚ) pl2_lambdavalues,
        cellMap (fun (_ : pl2_ranker ℚ) (_ : Unit) => ()) (fun _ _ => (0 : ℚ)) [()] cell = 0)
      ∧ (pl2_tune (fun (_ : pl2_ranker ℚ) (_ : Unit) => ()) (fun _ _ => (0 : ℚ)) [()]
          IrEval.zero).2.maxmap = 0
      ∧ (pl2_tune (fun (_ : pl2_ranker ℚ) (_ : Unit) => ()) (fun _ _ => (0 : ℚ)) [()]
          IrEval.zero).2.best = ⟨7, 0.1⟩
      ∧ (⟨7, 0.1⟩ : pl2_ranker ℚ) ∉ pl2Grid pl2_cvalues pl2_lambdavalues := by
  have hzero : ∀ cell : pl2_ranker ℚ,
      cellMap (fun (_ : pl2_ranker ℚ) (_ : Unit) => ()) (fun _ _ => (0 : ℚ)) [()] cell = 0 := by
    intro cell
    simp [cellMap, evalQueries, IrEval.avg_p, IrEval.map, IrEval.zero]
  have hrep := sweepCells_reportsBest (fun (_ : pl2_ranker ℚ) (_ : Unit) => ())
    (fun _ _ => (0 : ℚ)) [()] (pl2Grid pl2_cvalues pl2_lambdavalues) ⟨7, 0.1⟩
  have hbest := hrep.2.2 (fun cell _ => le_of_eq (hzero cell))
  refine ⟨fun cell _ => hzero cell, ?_, ?_, ?_⟩
  · unfold pl2_tune
    rw [pl2_tuneOn_eq_sweep]
    exact hbest.1
  · unfold pl2_tune
    rw [pl2_tuneOn_eq_sweep]
    exact hbest.2
  · simp only [pl2Grid, pl2_cvalues, pl2_lambdavalues, List.mem_flatMap, List.mem_map,
      pl2_ranker.mk.injEq, not_exists, not_and]
    intro c hc lambda _ hceq
    rw [hceq] at hc
    norm_num at hc

/-- C12 (amended). For every parameter grid and every query set, a sweep `pl2_tune`,
`mdtf2ln_tune`, `mptf2ln_tune` or `bm25_tune` started with the accumulator in its zero state
writes one row for every cell of the full cartesian product of the grid values, in loop
order, holding the aggregate MAP of the cell; if some cell has an aggregate MAP above 0, the
reported metric is the greatest aggregate MAP over all cells and the reported combination
is the first cell that attains it; if no cell has, the reported metric is 0 and the reported
combination is the initial one. -/
theorem tuning_sweeps_report_first_best {Q Rk : Type} (allqueries : List Q)
    (avgPrecision : Rk → Q → R) :
    (∀ (cvalues lambdavalues : List R) (score : pl2_ranker R → Q → Rk),
        ReportsBest (pl2Grid cvalues lambdavalues) (cellMap score avgPrecision allqueries)
          ⟨7, 0.1⟩
          (pl2_tuneOn cvalues lambdavalues score avgPrecision allqueries IrEval.zero).2)
      ∧ (∀ (alphavalues lambdavalues svalues muvalues : List R)
          (score : mdtf2ln_ranker R → Q → Rk),
        ReportsBest (mdtf2lnGrid alphavalues lambdavalues svalues muvalues)
          (cellMap score avgPrecision allqueries) ⟨0.2, 2000, 0.3, 0.7⟩
          (mdtf2ln_tuneOn alphavalues lambdavalues svalues muvalues score avgPrecision
            allqueries IrEval.zero).2)
      ∧ (∀ (alphavalues lambdavalues svalues muvalues : List R)
          (score : mptf2ln_ranker R → Q → Rk),
        ReportsBest (mptf2lnGrid alphavalues lambdavalues svalues muvalues)
          (cellMap score avgPrecision allqueries) ⟨0.2, 2000, 0.3, 0.7⟩
          (mptf2ln_tuneOn alphavalues lambdavalues svalues muvalues score avgPrecision
            allqueries IrEval.zero).2)
      ∧ (∀ (k1values bvalues k3values : List R) (score : okapi_bm25 R → Q → Rk),
        ReportsBest (bm25Grid k1values bvalues k3values)
          (cellMap score avgPrecision allqueries) ⟨1.2, 0.75, 500.0⟩
          (bm25_tuneOn k1values bvalues k3values score avgPrecision allqueries
            IrEval.zero)) := by
  refine ⟨?_, ?_, ?_, ?_⟩
  · intro cvalues lambdavalues score
    rw [pl2_tuneOn_eq_sweep]
    exact sweepCells_reportsBest score avgPrecision allqueries _ _
  · intro alphavalues lambdavalues svalues muvalues score
    rw [mdtf2ln_tuneOn_eq_sweep]
    exact sweepCells_reportsBest score avgPrecision allqueries _ _
  · intro alphavalues lambdavalues svalues muvalues score
    rw [mptf2ln_tuneOn_eq_sweep]
    exact sweepCells_reportsBest score avgPrecision allqueries _ _
  · intro k1values bvalues k3values score
    rw [bm25_tuneOn_eq_sweep]
    exact sweepCells_reportsBest score avgPrecision allqueries _ _

/-! ### Independence of the cells -/

theorem pl2_score_one_eq (log2 exp : R → R) (r : pl2_ranker R) (sd : ScoreData R) :
    r.score_one log2 exp sd
      = pl2Spec log2 (exp 1) 3.14 (sd.doc_term_count : R) (sd.doc_size : R) sd.avg_dl
          (sd.num_docs : R) (sd.corpus_term_count : R) r.c_ := by
  simp only [pl2_ranker.score_one, pl2Spec, mul_div_assoc]
  norm_num

/-- C14 (the claim fails). In the score context whose counters are all 1, with `c = 1`, the
value of `pl2_ranker::score_one` differs from the value of the formula taken with the
circle constant for `pi`: the code takes `pi = 3.14`. -/
theorem pl2_score_one_not_circle_constant :
    pl2_ranker.score_one (Real.logb 2) Real.exp ⟨1, 0.1⟩ (unitContext : ScoreData ℝ)
      ≠ pl2Spec (Real.logb 2) (Real.exp 1) Real.pi 1 1 1 1 1 1 := by
  have h2 : Real.logb 2 2 = 1 := Real.logb_self_eq_one (by norm_num)
  have hlt : Real.logb 2 (2 * 3.14) < Real.logb 2 (2 * Real.pi) := by
    rw [Real.logb_lt_logb_iff (by norm_num) (by norm_num) (by positivity)]
    linarith [Real.pi_gt_d2]
  rw [pl2_score_one_eq]
  intro h
  norm_num [pl2Spec, unitContext, h2] at h
  have h314 : (2 : ℝ) * 3.14 = 157 / 25 := by norm_num
  rw [h314, h] at hlt
  exact lt_irrefl _ hlt

/-- C14 (amended). For every score context with tf > 0, dl > 0 and ctf > 0 and every
parameter `c`, `pl2_ranker::score_one` returns the value of the specification's formula
with `tfn = tf*log2(1 + c*avgdl/dl)`, `L = N/ctf` computed from the corpus statistics and
the constant 3.14 for `pi`; the result does not depend on the stored `lambda_`. -/
theorem pl2_score_one_formula (log2 exp : R → R) (r : pl2_ranker R) (sd : ScoreData R)
    (_htf : 0 < sd.doc_term_count) (_hdl : 0 < sd.doc_size)
    (_hctf : 0 < sd.corpus_term_count) :
    r.score_one log2 exp sd
        = pl2Spec log2 (exp 1) 3.14 (sd.doc_term_count : R) (sd.doc_size : R)
            sd.avg_dl (sd.num_docs : R) (sd.corpus_term_count : R) r.c_
      ∧ ∀ lambda : R, pl2_ranker.score_one log2 exp ⟨r.c_, lambda⟩ sd
          = r.score_one log2 exp sd :=
  ⟨pl2_score_one_eq log2 exp r sd, fun _ => rfl⟩

/-- An instance of C14 (amended): the score context whose counters are all 1, over the
reals. -/
theorem pl2_score_one_formula_witness :
    (0 < (unitContext : ScoreData ℝ).doc_term_count
        ∧ 0 < (unitContext : ScoreData ℝ).doc_size
        ∧ 0 < (unitContext : ScoreData ℝ).corpus_term_count)
      ∧ pl2_ranker.score_one (Real.logb 2) Real.exp ⟨1, 0.1⟩ (unitContext : ScoreData ℝ)
        = pl2Spec (Real.logb 2) (Real.exp 1) 3.14
            ((unitContext : ScoreData ℝ).doc_term_count : ℝ)
            ((unitContext : ScoreData ℝ).doc_size : ℝ) (unitContext : ScoreData ℝ).avg_dl
            ((unitContext : ScoreData ℝ).num_docs : ℝ)
            ((unitContext : ScoreData ℝ).corpus_term_count : ℝ) 1 :=
  ⟨⟨by decide, by decide, by decide⟩,
    (pl2_score_one_formula (Real.logb 2) Real.exp ⟨1, 0.1⟩ (unitContext : ScoreData ℝ)
      (by decide) (by decide) (by decide)).1⟩

/-- C15. For every score context with df > 0, avgdl > 0, total > 0 and ctf > 0 and every
parameter set (s, mu, alpha, lambda), `mdtf2ln_ranker::score_one` returns
`qtw*tfidf2 - qtw*lnpiv^lambda` and `mptf2ln_ranker::score_one` returns
`qtw*tfidf2 / lnpiv^lambda`, with the same `tfidf2` and `lnpiv`, which are those of the
specification. -/
theorem tf2ln_score_one_formulas (log : R → R) (pow : R → R → R) (s mu alpha lambda : R)
    (sd : ScoreData R) (_hdf : 0 < sd.doc_count) (_havg : 0 < sd.avg_dl)
    (_htotal : 0 < sd.total_terms) (_hctf : 0 < sd.corpus_term_count) :
    mdtf2ln_ranker.score_one log pow ⟨s, mu, alpha, lambda⟩ sd
        = sd.query_term_weight
            * tfidf2Spec log mu alpha (sd.doc_term_count : R) (sd.doc_count : R)
                (sd.num_docs : R) (sd.corpus_term_count : R) (sd.total_terms : R)
          - sd.query_term_weight * pow (lnpivSpec s (sd.doc_size : R) sd.avg_dl) lambda
      ∧ mptf2ln_ranker.score_one log pow ⟨s, mu, alpha, lambda⟩ sd
        = sd.query_term_weight
            * tfidf2Spec log mu alpha (sd.doc_term_count : R) (sd.doc_count : R)
                (sd.num_docs : R) (sd.corpus_term_count : R) (sd.total_terms : R)
          / pow (lnpivSpec s (sd.doc_size : R) sd.avg_dl) lambda := by
  constructor
  · simp only [mdtf2ln_ranker.score_one, tfidf2Spec, lnpivSpec]
    norm_num
  · simp only [mptf2ln_ranker.score_one, tfidf2Spec, lnpivSpec]
    norm_num

/-- An instance of C15: the score context whose counters are all 1 and the default
parameters, over the reals. -/
theorem tf2ln_score_one_formulas_witness :
    (0 < (unitContext : ScoreData ℝ).doc_count ∧ 0 < (unitContext : ScoreData ℝ).avg_dl
        ∧ 0 < (unitContext : ScoreData ℝ).total_terms
        ∧ 0 < (unitContext : ScoreData ℝ).corpus_term_count)
      ∧ mdtf2ln_ranker.score_one Real.log Real.rpow ⟨0.2, 2000, 0.3, 0.7⟩
          (unitContext : ScoreData ℝ)
        = (unitContext : ScoreData ℝ).query_term_weight
            * tfidf2Spec Real.log 2000 0.3 ((unitContext : ScoreData ℝ).doc_term_count : ℝ)
                ((unitContext : ScoreData ℝ).doc_count : ℝ)
                ((unitContext : ScoreData ℝ).num_docs : ℝ)
                ((unitContext : ScoreData ℝ).corpus_term_count : ℝ)
                ((unitContext : ScoreData ℝ).total_terms : ℝ)
          - (unitContext : ScoreData ℝ).query_term_weight
            * Real.rpow (lnpivSpec 0.2 ((unitContext : ScoreData ℝ).doc_size : ℝ)
                (unitContext : ScoreData ℝ).avg_dl) 0.7 :=
  ⟨⟨by decide, by norm_num [unitContext], by decide, by decide⟩,
    (tf2ln_score_one_formulas Real.log Real.rpow 0.2 2000 0.3 0.7 (unitContext : ScoreData ℝ)
      (by decide) (by norm_num [unitContext]) (by decide) (by decide)).1⟩

/-- C19 (evaluation of the code). From a configuration that holds no key, `make_ranker`
builds the default-constructed ranker for PL2, Mountain, MDTF2LN and MPTF2LN; for Sigmoidal
it builds the ranker with all six parameters 1, whereas the default-constructed ranker has
b1 = 2.9, b2 = 3.7, l1 = l2 = 1.0, c = 0.5, k = 1.0. -/
theorem make_ranker_of_empty_config :
    pl2_ranker.make_ranker (emptyConfig : Config R) = pl2_ranker.default
      ∧ mountain_ranker.make_ranker (emptyConfig : Config R) = mountain_ranker.default
      ∧ mdtf2ln_ranker.make_ranker (emptyConfig : Config R) = mdtf2ln_ranker.default
      ∧ mptf2ln_ranker.make_ranker (emptyConfig : Config R) = mptf2ln_ranker.default
      ∧ sigmoidal_ranker.make_ranker (emptyConfig : Config R) = ⟨1, 1, 1, 1, 1, 1⟩
      ∧ (sigmoidal_ranker.default : sigmoidal_ranker R) = ⟨2.9, 3.7, 1, 1, 0.5, 1⟩
      ∧ sigmoidal_ranker.make_ranker (emptyConfig : Config R) ≠ sigmoidal_ranker.default := by
  refine ⟨?_, ?_, ?_, ?_, ?_, ?_, ?_⟩
  · simp only [pl2_ranker.make_ranker, pl2_ranker.default, emptyConfig, Option.getD_none,
      pl2_ranker.mk.injEq]
    norm_num
  · simp only [mountain_ranker.make_ranker, mountain_ranker.default, emptyConfig,
      Option.getD_none]
  · simp only [mdtf2ln_ranker.make_ranker, mdtf2ln_ranker.default, emptyConfig, configOr]
  · simp only [mptf2ln_ranker.make_ranker, mptf2ln_ranker.default, emptyConfig, configOr]
  · simp only [sigmoidal_ranker.make_ranker, emptyConfig, Option.getD_none,
      sigmoidal_ranker.mk.injEq]
    norm_num
  · simp only [sigmoidal_ranker.default, sigmoidal_ranker.mk.injEq]
    norm_num
  · simp only [sigmoidal_ranker.make_ranker, sigmoidal_ranker.default, emptyConfig,
      Option.getD_none, ne_eq, sigmoidal_ranker.mk.injEq]
    norm_num

/-! ### The NDCG column of `dirichlet_tune` -/

theorem dirichletQueries_snd {Q Rk : Type} (score : dirichlet_prior R → Q → Rk)
    (avgPrecision ndcg : Rk → Q → R) (ranker : dirichlet_prior R) (allqueries : List Q)
    (eval : IrEval R) (mean_ndcg : R) :
    (dirichletQueries score avgPrecision ndcg ranker allqueries eval mean_ndcg).2
      = mean_ndcg + (allqueries.map (fun query => ndcg (score ranker query) query)).sum := by
  unfold dirichletQueries
  induction allqueries generalizing eval mean_ndcg with
  | nil => simp
  | cons q rest ih =>
    rw [List.foldl_cons, ih]
    simp [add_assoc]

theorem dirichlet_rows {Q Rk : Type} (muvalues : List R) (score : dirichlet_prior R → Q → Rk)
    (avgPrecision ndcg : Rk → Q → R) (allqueries : List Q) (st : DirichletSweep R) :
    (muvalues.foldl (fun st mu =>
        let ranker : dirichlet_prior R := ⟨mu⟩
        let mean_ndcg : R := 0.0
        let acc := dirichletQueries score avgPrecision ndcg ranker allqueries st.eval mean_ndcg
        let outfile := st.outfile ++ [(mu, acc.1.map, acc.2 / 1000.0)]
        if acc.1.map > st.maxmap then
          (⟨acc.1.reset_stats, acc.1.map, mu, outfile⟩ : DirichletSweep R)
        else ⟨acc.1.reset_stats, st.maxmap, st.mumax, outfile⟩) st).outfile.map
        (fun row => (row.1, row.2.2))
      = st.outfile.map (fun row => (row.1, row.2.2))
        ++ muvalues.map (fun mu =>
            (mu, (allqueries.map (fun query => ndcg (score ⟨mu⟩ query) query)).sum / 1000)) := by
  induction muvalues generalizing st with
  | nil => simp
  | cons mu rest ih =>
    rw [List.foldl_cons]
    simp only
    split
    · rw [ih]
      simp [dirichletQueries_snd]
      norm_num
    · rw [ih]
      simp [dirichletQueries_snd]
      norm_num

/-- C20 (evaluation of the code). For every set of queries and every grid value `mu`, the
NDCG value `dirichlet_tune` writes in the row of that cell is the sum of the per-query NDCG
values divided by the constant 1000, not by the number of queries; with a single query
whose NDCG is 1 the three rows hold 1/1000, whereas the mean over the queries is 1. -/
theorem dirichlet_tune_ndcg_divided_by_1000 :
    (∀ (S : Type) [LinearOrderedField S] (Q Rk : Type) (score : dirichlet_prior S → Q → Rk)
        (avgPrecision ndcg : Rk → Q → S) (allqueries : List Q) (eval : IrEval S),
      (dirichlet_tune score avgPrecision ndcg allqueries eval).outfile.map
          (fun row => (row.1, row.2.2))
        = [(0.0 : S), 500.0, 2000.0].map (fun mu =>
            (mu, (allqueries.map (fun query => ndcg (score ⟨mu⟩ query) query)).sum / 1000)))
      ∧ (dirichlet_tune (fun (_ : dirichlet_prior ℚ) (_ : Unit) => ()) (fun _ _ => (1 : ℚ))
            (fun _ _ => (1 : ℚ)) [()] IrEval.zero).outfile.map (fun row => row.2.2)
          = [1 / 1000, 1 / 1000, 1 / 1000]
      ∧ (([()] : List Unit).map (fun _ => (1 : ℚ))).sum / (([()] : List Unit).length : ℚ)
          = 1 := by
  have hgen : ∀ (S : Type) [LinearOrderedField S] (Q Rk : Type)
      (score : dirichlet_prior S → Q → Rk) (avgPrecision ndcg : Rk → Q → S)
      (allqueries : List Q) (eval : IrEval S),
      (dirichlet_tune score avgPrecision ndcg allqueries eval).outfile.map
          (fun row => (row.1, row.2.2))
        = [(0.0 : S), 500.0, 2000.0].map (fun mu =>
            (mu, (allqueries.map (fun query => ndcg (score ⟨mu⟩ query) query)).sum / 1000)) := by
    intro S _ Q Rk score avgPrecision ndcg allqueries eval
    have := dirichlet_rows [(0.0 : S), 500.0, 2000.0] score avgPrecision ndcg allqueries
      ⟨eval, 0, 0.0, []⟩
    simpa [dirichlet_tune, dirichlet_tuneOn] using this
  refine ⟨hgen, ?_, by norm_num⟩
  have h := hgen ℚ Unit Unit (fun _ _ => ()) (fun _ _ => (1 : ℚ)) (fun _ _ => (1 : ℚ)) [()]
    IrEval.zero
  have h2 := congrArg (List.map Prod.snd) h
  simpa [List.map_map, Function.comp_def] using h2

end QueryRunner
